import Mathlib

/-!
# Verification development for the mock power sensor (script/main.go)

The program downloads a CSV dataset, turns it into per-row load records
(`parseDataset`) and renders every record as a line-protocol message
(`convertToLineProtocol`).  This file embeds those functions in Lean and
proves properties about them.

Modelling conventions

* Go strings are Lean strings.  `strings.HasPrefix` and the slice expression
  `s[n:]` are byte based in Go; the embedding works on characters.  The two
  agree on valid UTF-8 text whenever the removed part is ASCII, which is the
  case at the only slicing site of the program (the removed part is a
  two-letter country code followed by an underscore).
* `time.Time` values are instants: integer nanoseconds since the Unix epoch.
* `float64` values are IEEE-754 binary64 bit fields.
* The library parsers `time.Parse(time.RFC3339, _)` and
  `strconv.ParseFloat(_, 64)` are parameters of the embedding (`Lib`); a
  reference instance `refLib` is supplied for concrete evaluations.
* `encoding/csv` is an external collaborator: the input of `parseDataset`
  is what `reader.Read()` and `reader.ReadAll()` hand back.
-/

set_option autoImplicit false

namespace PowerSensor

/-! ## Library layer -/

/-- Instants, as nanoseconds since 1970-01-01T00:00:00Z. -/
abbrev Time := Int

/-- Days between 1970-01-01 and the given proleptic Gregorian civil date. -/
def daysFromCivil (y m d : Nat) : Int :=
  let yy : Int := if m ≤ 2 then (y : Int) - 1 else (y : Int)
  let era : Int := yy / 400
  let yoe : Int := yy - era * 400
  let mp : Int := if m ≤ 2 then (m : Int) + 9 else (m : Int) - 3
  let doy : Int := (153 * mp + 2) / 5 + (d : Int) - 1
  let doe : Int := yoe * 365 + yoe / 4 - yoe / 100 + doy
  era * 146097 + doe - 719468

/-- Model of `time.Date(y, m, d, h, mi, s, ns, time.UTC)` for in-range
arguments (the program only calls it with literal in-range arguments). -/
def timeDate (y m d h mi s ns : Nat) : Time :=
  (((daysFromCivil y m d * 24 + (h : Int)) * 60 + (mi : Int)) * 60 + (s : Int)) * 1000000000
    + (ns : Int)

/-- The zero value `time.Time{}`: January 1, year 1, 00:00:00 UTC. -/
def zeroTime : Time := timeDate 1 1 1 0 0 0 0

/-- Model of `t.After(u)`. -/
def Time.After (t u : Time) : Bool := decide (u < t)

/-- Model of `t.Before(u)`. -/
def Time.Before (t u : Time) : Bool := decide (t < u)

/-- Model of `strings.HasPrefix(s, p)`. -/
def hasPrefixStr (s p : String) : Bool := p.data.isPrefixOf s.data

/-- Model of the slice expression `s[n:]`; `none` stands for the run-time
panic "slice bounds out of range". -/
def sliceFrom (s : String) (n : Nat) : Option String :=
  if n ≤ s.data.length then some (String.mk (s.data.drop n)) else none

/-- Model of `fmt.Sprintf("%s_%s", a, b)`. -/
def sprintfJoin (a b : String) : String := a ++ "_" ++ b

/-- A `float64` value, as its IEEE-754 binary64 fields. -/
structure Float64 where
  sign : Bool
  expo : Nat
  frac : Nat
deriving DecidableEq, Repr

/-- The zero value of `float64`, positive zero. -/
def Float64.zero : Float64 := ⟨false, 0, 0⟩

/-- The six decimal digits of a number below one million, leading zeros
included. -/
def sixDigits (n : Nat) : List Char :=
  [Nat.digitChar (n / 100000 % 10), Nat.digitChar (n / 10000 % 10),
    Nat.digitChar (n / 1000 % 10), Nat.digitChar (n / 100 % 10),
    Nat.digitChar (n / 10 % 10), Nat.digitChar (n % 10)]

/-- Rounds `n / d` to the nearest integer, ties to even. -/
def roundHalfEven (n d : Nat) : Nat :=
  let q := n / d
  let r := n % d
  if 2 * r < d then q
  else if d < 2 * r then q + 1
  else if q % 2 = 0 then q else q + 1

/-- Decimal rendering of a natural number (`%d` on a non-negative value). -/
def natDecimal (n : Nat) : String := Nat.repr n

/-- Decimal rendering of an integer (`%d`). -/
def intDecimal : Int → String
  | Int.ofNat n => natDecimal n
  | Int.negSucc n => "-" ++ natDecimal (n + 1)

/-- Model of `fmt.Sprintf("%f", x)`: the exact binary value rounded (ties to
even) to six fractional digits; infinities and NaN render as Go prints them. -/
def formatFloat (x : Float64) : String :=
  if x.expo = 2047 then
    if x.frac = 0 then (if x.sign then "-Inf" else "+Inf") else "NaN"
  else
    let mant : Nat := if x.expo = 0 then x.frac else 2 ^ 52 + x.frac
    let e : Nat := if x.expo = 0 then 1 else x.expo
    -- the value is mant * 2 ^ (e - 1075)
    let scaled : Nat :=
      if 1075 ≤ e then mant * 2 ^ (e - 1075) * 1000000
      else roundHalfEven (mant * 1000000) (2 ^ (1075 - e))
    (if x.sign then "-" else "") ++ natDecimal (scaled / 1000000) ++ "." ++
      String.mk (sixDigits (scaled % 1000000))

/-- The library parsers the program calls.  `parseTime s` is `some t` when
`time.Parse(time.RFC3339, s)` returns instant `t` with a nil error;
`parseFloat s` is `some x` when `strconv.ParseFloat(s, 64)` returns `x` with
a nil error. -/
structure Lib where
  parseTime : String → Option Time
  parseFloat : String → Option Float64

/-! ### Reference instance of the library parsers -/

/-- Value of a decimal digit character. -/
def digitVal (c : Char) : Option Nat :=
  if 48 ≤ c.toNat ∧ c.toNat ≤ 57 then some (c.toNat - 48) else none

/-- Reads a run of decimal digits; gives the number and how many digits. -/
def readDigits : List Char → Nat → Nat → Nat × Nat × List Char
  | [], acc, cnt => (acc, cnt, [])
  | c :: cs, acc, cnt =>
    match digitVal c with
    | some v => readDigits cs (acc * 10 + v) (cnt + 1)
    | none => (acc, cnt, c :: cs)

/-- Reads exactly two decimal digits. -/
def twoDigits (a b : Char) : Option Nat :=
  match digitVal a, digitVal b with
  | some x, some y => some (x * 10 + y)
  | _, _ => none

/-- Reads exactly four decimal digits. -/
def fourDigits (a b c d : Char) : Option Nat :=
  match twoDigits a b, twoDigits c d with
  | some x, some y => some (x * 100 + y)
  | _, _ => none

/-- Leap years of the proleptic Gregorian calendar. -/
def isLeap (y : Nat) : Bool := y % 4 = 0 ∧ (y % 100 ≠ 0 ∨ y % 400 = 0)

/-- Number of days of a month. -/
def daysIn (y m : Nat) : Nat :=
  if m = 2 then (if isLeap y then 29 else 28)
  else if m = 4 ∨ m = 6 ∨ m = 9 ∨ m = 11 then 30 else 31

/-- Reads the optional fractional second: nanoseconds and the rest. -/
def readFraction : List Char → Option (Nat × List Char)
  | '.' :: cs =>
    match readDigits cs 0 0 with
    | (_, 0, _) => none
    | (v, k, rest) =>
      if k ≤ 9 then some (v * 10 ^ (9 - k), rest) else some (v / 10 ^ (k - 9), rest)
  | cs => some (0, cs)

/-- Reads the zone designator: the offset east of UTC in seconds. -/
def readZone : List Char → Option Int
  | ['Z'] => some 0
  | [sg, h1, h2, ':', m1, m2] =>
    match twoDigits h1 h2, twoDigits m1 m2 with
    | some h, some m =>
      if h < 24 ∧ m < 60 then
        if sg = '+' then some (((h : Int) * 60 + (m : Int)) * 60)
        else if sg = '-' then some (-(((h : Int) * 60 + (m : Int)) * 60))
        else none
      else none
    | _, _ => none
  | _ => none

/-- Reference model of `time.Parse(time.RFC3339, s)` on the RFC 3339
grammar `YYYY-MM-DDTHH:MM:SS[.frac](Z|±hh:mm)`. -/
def parseRFC3339 (s : String) : Option Time :=
  match s.data with
  | y1 :: y2 :: y3 :: y4 :: '-' :: mo1 :: mo2 :: '-' :: d1 :: d2 :: 'T' ::
      h1 :: h2 :: ':' :: mi1 :: mi2 :: ':' :: s1 :: s2 :: rest =>
    match fourDigits y1 y2 y3 y4, twoDigits mo1 mo2, twoDigits d1 d2,
        twoDigits h1 h2, twoDigits mi1 mi2, twoDigits s1 s2 with
    | some y, some mo, some d, some h, some mi, some sec =>
      if 1 ≤ mo ∧ mo ≤ 12 ∧ 1 ≤ d ∧ d ≤ daysIn y mo ∧ h < 24 ∧ mi < 60 ∧ sec < 60 then
        match readFraction rest with
        | some (ns, rest2) =>
          match readZone rest2 with
          | some off => some (timeDate y mo d h mi sec ns - off * 1000000000)
          | none => none
        | none => none
      else none
    | _, _, _, _, _, _ => none
  | _ => none

/-- Number of binary digits of `n`; the first argument is recursion fuel. -/
def bitLength : Nat → Nat → Nat
  | 0, _ => 0
  | fuel + 1, n => if n = 0 then 0 else bitLength fuel (n / 2) + 1

/-- The binary64 nearest (ties to even) to the positive rational `n / d`;
`none` when the result overflows the finite range. -/
def nearestFloat64 (sign : Bool) (n d : Nat) : Option Float64 :=
  if n = 0 then some ⟨sign, 0, 0⟩
  else
    let g : Int := (bitLength n n : Int) - (bitLength d d : Int)
    -- floor of the binary logarithm of n / d
    let ex : Int := if d * 2 ^ g.toNat ≤ n * 2 ^ (-g).toNat then g else g - 1
    let e2 : Int := max (ex - 52) (-1074)
    let mant : Nat := roundHalfEven (n * 2 ^ (-e2).toNat) (d * 2 ^ e2.toNat)
    let mant2 : Nat := if mant = 2 ^ 53 then 2 ^ 52 else mant
    let e3 : Int := if mant = 2 ^ 53 then e2 + 1 else e2
    if 971 < e3 then none
    else if mant2 < 2 ^ 52 then some ⟨sign, 0, mant2⟩
    else some ⟨sign, (e3 + 1075).toNat, mant2 - 2 ^ 52⟩

/-- Reads an unsigned plain decimal literal `digits[.digits]`. -/
def readDecimal (cs : List Char) : Option (Nat × Nat) :=
  match readDigits cs 0 0 with
  | (ip, k1, []) => if k1 = 0 then none else some (ip, 1)
  | (ip, k1, '.' :: rest) =>
    match readDigits rest 0 0 with
    | (fp, k2, []) => if k1 + k2 = 0 then none else some (ip * 10 ^ k2 + fp, 10 ^ k2)
    | _ => none
  | _ => none

/-- Reference model of `strconv.ParseFloat(s, 64)` on plain decimal
literals `[+-]digits[.digits]`, correctly rounded.  Exponent, hexadecimal,
infinity and NaN spellings are outside this reference instance. -/
def parseDecimalFloat (s : String) : Option Float64 :=
  match s.data with
  | '-' :: cs => (readDecimal cs).bind (fun p => nearestFloat64 true p.1 p.2)
  | '+' :: cs => (readDecimal cs).bind (fun p => nearestFloat64 false p.1 p.2)
  | cs => (readDecimal cs).bind (fun p => nearestFloat64 false p.1 p.2)

/-- The reference instance of the library parsers. -/
def refLib : Lib := ⟨parseRFC3339, parseDecimalFloat⟩

/-! ## The program -/

/-- The configured country codes (`countries`). -/
def countries : List String := ["DE", "AT", "HU", "NL", "BE", "LU"]

/-- The configured column names (`columns`). -/
def columns : List String :=
  ["utc_timestamp", "load_actual_entsoe_transparency", "load_forecast_entsoe_transparency"]

/-- The `record` struct. -/
structure record where
  DateTimeUTC : Time
  CountryCode : String
  LoadActual : Float64
  LoadForecast : Float64
deriving DecidableEq, Repr

/-- The zero value `record{}`. -/
def record.zero : record := ⟨zeroTime, "", Float64.zero, Float64.zero⟩

/-- Ways in which a call can fail: the first three are errors returned to
the caller, the last three are run-time panics. -/
inductive Failure
  | readingHeader
  | readingRecords
  | parsingDatetime
  | indexOutOfRange
  | sliceOutOfRange
  | parseFloatPanic
deriving DecidableEq, Repr

instance instDecidableEqExcept {ε α : Type} [DecidableEq ε] [DecidableEq α] :
    DecidableEq (Except ε α)
  | .ok a, .ok b => if h : a = b then isTrue (by rw [h]) else isFalse (fun e => h (by cases e; rfl))
  | .error a, .error b =>
    if h : a = b then isTrue (by rw [h]) else isFalse (fun e => h (by cases e; rfl))
  | .ok _, .error _ => isFalse (fun e => by cases e)
  | .error _, .ok _ => isFalse (fun e => by cases e)

/-- Whether a failure is an `error` value returned to the caller (as opposed
to a panic). -/
def Failure.isError : Failure → Bool
  | .readingHeader => true
  | .readingRecords => true
  | .parsingDatetime => true
  | _ => false

/-- Model of `convertToLineProtocol`; `now` is the value of
`time.Now().UnixNano()` read by the call. -/
def convertToLineProtocol (now : Int) (data : record) : Except Failure String :=
  let buffer := ""
  let buffer := buffer ++ "sensor,"
  let buffer := buffer ++ ("country=" ++ data.CountryCode ++ " ")
  let buffer := buffer ++ ("load_actual=" ++ formatFloat data.LoadActual ++ ",")
  let buffer := buffer ++ ("load_forecast=" ++ formatFloat data.LoadForecast ++ " ")
  let buffer := buffer ++ intDecimal now
  .ok buffer

/-- Model of `mustParseFloat`. -/
def mustParseFloat (L : Lib) (s : String) : Except Failure Float64 :=
  if s = "" then .ok Float64.zero
  else
    match L.parseFloat s with
    | some f => .ok f
    | none => .error .parseFloatPanic

/-- The map `indices` of `parseDataset`, from column position to country. -/
abbrev Indices := Nat → Option String

/-- The empty map. -/
def Indices.empty : Indices := fun _ => none

/-- The assignment `indices[j] = country`. -/
def Indices.set (m : Indices) (j : Nat) (country : String) : Indices :=
  fun k => if k = j then some country else m k

/-- The pairs `(j, x)` a `for j, x := range xs` loop visits, counted from
the given start. -/
def rangeFrom {α : Type} : List α → Nat → List (Nat × α)
  | [], _ => []
  | x :: xs, j => (j, x) :: rangeFrom xs (j + 1)

/-- The innermost loop of the index construction: the first country, in
iteration order, at which the condition holds (the loop breaks there). -/
def matchCountry (col column : String) : List String → Option String
  | [] => none
  | country :: rest =>
    if col = "utc_timestamp" ∨ hasPrefixStr col (sprintfJoin country column) then some country
    else matchCountry col column rest

/-- The middle loop of the index construction, over the header positions. -/
def indexColumn (cs : List String) (column : String) :
    List (Nat × String) → Indices → Indices
  | [], m => m
  | (j, col) :: rest, m =>
    match matchCountry col column cs with
    | some country => indexColumn cs column rest (m.set j country)
    | none => indexColumn cs column rest m

/-- The outer loop of the index construction, over the column names. -/
def indexColumns (cs : List String) (hdr : List (Nat × String)) :
    List String → Indices → Indices
  | [], m => m
  | column :: rest, m => indexColumns cs hdr rest (indexColumn cs column hdr m)

/-- The index construction of `parseDataset` (lines 99-109), for given
iteration orders of the countries, the column names and the header. -/
def buildIndices (cs cols : List String) (hdr : List (Nat × String)) : Indices :=
  indexColumns cs hdr cols Indices.empty

/-- The first cutoff, `time.Date(2017, 12, 31, 23, 59, 0, 0, time.UTC)`. -/
def filterCutoff : Time := timeDate 2017 12 31 23 59 0 0

/-- The second cutoff, `time.Date(2018, 1, 1, 0, 0, 0, 0, time.UTC)`. -/
def recordCutoff : Time := timeDate 2018 1 1 0 0 0 0

/-- The filter loop of `parseDataset` (lines 116-126). -/
def filterLoop (L : Lib) : List (List String) → List (List String) →
    Except Failure (List (List String))
  | [], filtered => .ok filtered
  | row :: rest, filtered =>
    match row[0]? with
    | none => .error .indexOutOfRange
    | some cell =>
      match L.parseTime cell with
      | none => .error .parsingDatetime
      | some date =>
        if date.After filterCutoff then filterLoop L rest (filtered ++ [row])
        else filterLoop L rest filtered

/-- The column sweep over one row (lines 131-149). -/
def sweepRow (L : Lib) (header : List String) (indices : Indices) :
    List String → Nat → record → Except Failure record
  | [], _, r => .ok r
  | value :: rest, j, r =>
    match header[j]? with
    | none => .error .indexOutOfRange
    | some name =>
      if name = "utc_timestamp" then
        match L.parseTime value with
        | none => .error .parsingDatetime
        | some t =>
          let r1 := { r with DateTimeUTC := t }
          if t.Before recordCutoff then
            -- `continue`: on to the next column of the same row
            sweepRow L header indices rest (j + 1) r1
          else
            sweepRow L header indices rest (j + 1) r1
      else
        match indices j with
        | some country =>
          let r1 := { r with CountryCode := country }
          match sliceFrom name (country.length + 1) with
          | none => .error .sliceOutOfRange
          | some column =>
            if column = "load_actual_entsoe_transparency" then
              match mustParseFloat L value with
              | .error e => .error e
              | .ok f => sweepRow L header indices rest (j + 1) { r1 with LoadActual := f }
            else if column = "load_forecast_entsoe_transparency" then
              match mustParseFloat L value with
              | .error e => .error e
              | .ok f => sweepRow L header indices rest (j + 1) { r1 with LoadForecast := f }
            else sweepRow L header indices rest (j + 1) r1
        | none => sweepRow L header indices rest (j + 1) r

/-- The record loop of `parseDataset` (lines 128-151). -/
def recordsLoop (L : Lib) (header : List String) (indices : Indices) :
    List (List String) → List record → Except Failure (List record)
  | [], records => .ok records
  | row :: rest, records =>
    match sweepRow L header indices row 0 record.zero with
    | .error e => .error e
    | .ok r => recordsLoop L header indices rest (records ++ [r])

/-- What the CSV reader hands to `parseDataset`: the result of
`reader.Read()` (`none` when it fails) and of `reader.ReadAll()`. -/
structure CsvInput where
  header : Option (List String)
  remaining : Option (List (List String))

/-- Model of `parseDataset`. -/
def parseDataset (L : Lib) (dataset : CsvInput) : Except Failure (List record) :=
  match dataset.header with
  | none => .error .readingHeader
  | some header =>
    let indices := buildIndices countries columns (rangeFrom header 0)
    match dataset.remaining with
    | none => .error .readingRecords
    | some remaining =>
      match filterLoop L remaining [] with
      | .error e => .error e
      | .ok filtered => recordsLoop L header indices filtered []

/-- The records `main` goes on to publish (lines 48-60): those returned by
`parseDataset`; when `parseDataset` returns an error, `main` panics before
the publish loop and nothing is published. -/
def mainRecords (L : Lib) (dataset : CsvInput) : List record :=
  match parseDataset L dataset with
  | .error _ => []
  | .ok records => records

/-! ## Auxiliary definitions used in the statements -/

/-- The body of the column sweep: what one cell does to the record. -/
def cellStep (L : Lib) (header : List String) (indices : Indices)
    (j : Nat) (value : String) (r : record) : Except Failure record :=
  match header[j]? with
  | none => .error .indexOutOfRange
  | some name =>
    if name = "utc_timestamp" then
      match L.parseTime value with
      | none => .error .parsingDatetime
      | some t => .ok { r with DateTimeUTC := t }
    else
      match indices j with
      | some country =>
        match sliceFrom name (country.length + 1) with
        | none => .error .sliceOutOfRange
        | some column =>
          if column = "load_actual_entsoe_transparency" then
            match mustParseFloat L value with
            | .error e => .error e
            | .ok f => .ok { r with CountryCode := country, LoadActual := f }
          else if column = "load_forecast_entsoe_transparency" then
            match mustParseFloat L value with
            | .error e => .error e
            | .ok f => .ok { r with CountryCode := country, LoadForecast := f }
          else .ok { r with CountryCode := country }
      | none => .ok r

/-- The instant in the first cell of a row, when it parses. -/
def rowTime (L : Lib) (row : List String) : Option Time :=
  match row[0]? with
  | none => none
  | some cell => L.parseTime cell

/-- Whether the filter loop keeps a row. -/
def survives (L : Lib) (row : List String) : Bool :=
  match rowTime L row with
  | some date => date.After filterCutoff
  | none => false

/-- The rows the filter loop keeps. -/
def keptRows (L : Lib) (body : List (List String)) : List (List String) :=
  body.filter (survives L)

/-- The index `parseDataset` builds for a header. -/
def indicesOf (header : List String) : Indices :=
  buildIndices countries columns (rangeFrom header 0)

/-- Position `k` holds a column, other than the timestamp column, that is in
the index. -/
def writesCountry (header : List String) (indices : Indices) (k : Nat) : Prop :=
  ∃ name c, header[k]? = some name ∧ name ≠ "utc_timestamp" ∧ indices k = some c

/-- Position `k` holds an indexed column whose name, once the country code
and the underscore are stripped, is exactly the given metric name. -/
def writesMetric (header : List String) (indices : Indices) (metric : String) (k : Nat) : Prop :=
  ∃ name c, header[k]? = some name ∧ name ≠ "utc_timestamp" ∧ indices k = some c ∧
    sliceFrom name (c.length + 1) = some metric

/-- Position `k` of the header holds the given metric column of a
configured country. -/
def loadColumn (header : List String) (metric : String) (k : Nat) : Prop :=
  ∃ c ∈ countries, header[k]? = some (sprintfJoin c metric)

/-- Whether a column name is a load column of a configured country. -/
def isLoadName (name : String) : Bool :=
  countries.any (fun c =>
    decide (name = sprintfJoin c "load_actual_entsoe_transparency") ||
    decide (name = sprintfJoin c "load_forecast_entsoe_transparency"))

/-- Whether a cell parses as its column requires: an RFC 3339 instant under
"utc_timestamp", an empty or numeric cell under a load column. -/
def cellParses (L : Lib) (name value : String) : Bool :=
  if name = "utc_timestamp" then (L.parseTime value).isSome
  else if isLoadName name then decide (value = "") || (L.parseFloat value).isSome
  else true

/-- Whether a row has as many cells as the header and all its cells parse. -/
def rowParses (L : Lib) (header row : List String) : Bool :=
  decide (row.length = header.length) && (List.zipWith (cellParses L) header row).all id

/-! ### Sample data for concrete evaluations -/

/-- The `float64` value 1000.0. -/
def f1000 : Float64 := ⟨false, 1032, 4292493394837504⟩

/-- The `float64` value 1100.0. -/
def f1100 : Float64 := ⟨false, 1033, 334251534843904⟩

/-- The instant 2019-05-01T12:00:00Z. -/
def sampleTime : Time := timeDate 2019 5 1 12 0 0 0

/-- A data row of the sample datasets. -/
def sampleRow : List String := ["2019-05-01T12:00:00Z", "1000.0", "1100.0"]

/-- A header with the two load columns of Germany. -/
def germanHeader : List String :=
  ["utc_timestamp", "DE_load_actual_entsoe_transparency", "DE_load_forecast_entsoe_transparency"]

/-- A header whose load columns belong to two different countries. -/
def mixedHeader : List String :=
  ["utc_timestamp", "DE_load_actual_entsoe_transparency", "AT_load_forecast_entsoe_transparency"]

/-- The rational number a finite `float64` value stands for. -/
def Float64.toRat (x : Float64) : ℚ :=
  (if x.sign then -1 else 1) *
    (((if x.expo = 0 then x.frac else 2 ^ 52 + x.frac : Nat) : ℚ) *
      (2 : ℚ) ^ (((if x.expo = 0 then 1 else x.expo : Nat) : Int) - 1075))

/-- The `float64` value 1234.5. -/
def f1234_5 : Float64 := ⟨false, 1033, 925788790587392⟩

/-- A header with two columns named "utc_timestamp". -/
def twoTimestampHeader : List String := ["utc_timestamp", "utc_timestamp"]

/-- Whether a column name is not "utc_timestamp" and starts with no
configured country-and-column combination. -/
def matchesNoPrefix (name : String) : Bool :=
  decide (name ≠ "utc_timestamp") &&
    countries.all (fun c => columns.all (fun m => !hasPrefixStr name (sprintfJoin c m)))

/-- Position `k` is not the first one and holds a column that matches no
configured combination. -/
def ignoredColumn (header : List String) (k : Nat) : Prop :=
  1 ≤ k ∧ ∃ name, header[k]? = some name ∧ matchesNoPrefix name = true

/-- Two rows have the same number of cells and the same cells outside the
given positions. -/
def agreeOutside (ign : Nat → Prop) (row1 row2 : List String) : Prop :=
  row1.length = row2.length ∧ ∀ k, ¬ ign k → row1[k]? = row2[k]?

/-- Two records agree on everything but the country code. -/
def sameReadings (r r2 : record) : Prop :=
  r.DateTimeUTC = r2.DateTimeUTC ∧ r.LoadActual = r2.LoadActual ∧
    r.LoadForecast = r2.LoadForecast

/-- Position `p` holds an indexed column whose metric name, once the country
code and the underscore are stripped, is neither of the two load metrics. -/
def otherMetricColumn (header : List String) (p : Nat) : Prop :=
  ∃ name c metric, header[p]? = some name ∧ name ≠ "utc_timestamp" ∧
    indicesOf header p = some c ∧ sliceFrom name (c.length + 1) = some metric ∧
    metric ≠ "load_actual_entsoe_transparency" ∧
    metric ≠ "load_forecast_entsoe_transparency"

/-- Two outcomes fail alike or succeed with related values. -/
def resRel {α : Type} (Rel : α → α → Prop) : Except Failure α → Except Failure α → Prop
  | .error e, .error e2 => e = e2
  | .ok a, .ok b => Rel a b
  | _, _ => False

/-- A header with a third column that is indexed but is no load column. -/
def legacyHeader : List String :=
  ["utc_timestamp", "AT_load_actual_entsoe_transparency",
    "DE_load_actual_entsoe_transparency_old"]

/-- A header whose second column is indexed but is no load column, followed
by a load column. -/
def legacyFirstHeader : List String :=
  ["utc_timestamp", "DE_load_actual_entsoe_transparency_old",
    "DE_load_actual_entsoe_transparency"]

/-! ### Re-parsing a line-protocol message -/

/-- Splits a character list at the first occurrence of the separator. -/
def splitAtChar (sep : Char) : List Char → Option (List Char × List Char)
  | [] => none
  | x :: xs =>
    if x = sep then some ([], xs)
    else (splitAtChar sep xs).map (fun p => (x :: p.1, p.2))

/-- Removes a literal from the front of a character list. -/
def dropLiteral (lit l : List Char) : Option (List Char) :=
  if lit.isPrefixOf l then some (l.drop lit.length) else none

/-- A re-parser for messages of the form
`sensor,country=<code> load_actual=<f>,load_forecast=<f> <nanos>`: it gives
the country tag and the texts of the two fields.  The program has no
decoder; this one follows the message format and serves to state the round
trip. -/
def decodeLine (s : String) : Option (String × String × String) :=
  (dropLiteral "sensor,country=".data s.data).bind fun rest1 =>
  (splitAtChar ' ' rest1).bind fun p1 =>
  (dropLiteral "load_actual=".data p1.2).bind fun rest2 =>
  (splitAtChar ',' rest2).bind fun p2 =>
  (dropLiteral "load_forecast=".data p2.2).bind fun rest3 =>
  (splitAtChar ' ' rest3).bind fun p3 =>
  some (String.mk p1.1, String.mk p2.1, String.mk p3.1)

/-- Re-parsing a message and parsing its two field texts as numbers. -/
def reparseLine (L : Lib) (s : String) : Option (String × Float64 × Float64) :=
  (decodeLine s).bind fun d =>
  (L.parseFloat d.2.1).bind fun a =>
  (L.parseFloat d.2.2).bind fun f =>
  some (d.1, a, f)

/-- The `float64` value 2^-24, about 0.0000000596. -/
def fTiny : Float64 := ⟨false, 999, 0⟩

/-! ## Lemmas on the library layer -/

theorem hasPrefixStr_iff (s p : String) : hasPrefixStr s p = true ↔ p.data <+: s.data := by
  unfold hasPrefixStr
  exact List.isPrefixOf_iff_prefix

theorem sprintfJoin_data (a b : String) : (sprintfJoin a b).data = a.data ++ '_' :: b.data := by
  simp [sprintfJoin, String.data_append]

theorem mem_rangeFrom {α : Type} (xs : List α) (s j : Nat) (x : α) :
    (j, x) ∈ rangeFrom xs s ↔ s ≤ j ∧ xs[j - s]? = some x := by
  induction xs generalizing s with
  | nil => simp [rangeFrom]
  | cons y ys ih =>
    simp only [rangeFrom, List.mem_cons, Prod.mk.injEq, ih]
    constructor
    · rintro (⟨rfl, rfl⟩ | ⟨h1, h2⟩)
      · simp
      · refine ⟨by omega, ?_⟩
        have : j - s = (j - (s + 1)) + 1 := by omega
        rw [this]
        simpa using h2
    · rintro ⟨h1, h2⟩
      by_cases hj : j = s
      · subst hj
        left
        simpa using h2.symm
      · right
        refine ⟨by omega, ?_⟩
        have : j - s = (j - (s + 1)) + 1 := by omega
        rw [this] at h2
        simpa using h2

/-! ## Lemmas on the index construction -/

theorem matchCountry_mem {col column : String} {cs : List String} {c : String}
    (h : matchCountry col column cs = some c) : c ∈ cs := by
  induction cs with
  | nil => simp [matchCountry] at h
  | cons c0 rest ih =>
    unfold matchCountry at h
    split at h
    · simp only [Option.some.injEq] at h
      simp [h]
    · exact List.mem_cons_of_mem _ (ih h)

theorem matchCountry_cond {col column : String} {cs : List String} {c : String}
    (h : matchCountry col column cs = some c) :
    col = "utc_timestamp" ∨ hasPrefixStr col (sprintfJoin c column) = true := by
  induction cs with
  | nil => simp [matchCountry] at h
  | cons c0 rest ih =>
    unfold matchCountry at h
    split at h
    · rename_i hc
      simp only [Option.some.injEq] at h
      subst h
      exact hc
    · exact ih h

theorem matchCountry_isSome {col column : String} {cs : List String} {c : String}
    (hc : c ∈ cs) (hp : hasPrefixStr col (sprintfJoin c column) = true) :
    ∃ c0, matchCountry col column cs = some c0 := by
  induction cs with
  | nil => simp at hc
  | cons c0 rest ih =>
    unfold matchCountry
    split
    · exact ⟨c0, rfl⟩
    · rename_i hn
      rcases List.mem_cons.mp hc with rfl | hmem
      · exact absurd (Or.inr hp) hn
      · exact ih hmem

theorem matchCountry_timestamp (column c0 : String) (rest : List String) :
    matchCountry "utc_timestamp" column (c0 :: rest) = some c0 := by
  simp [matchCountry]

/-- Two codes of length two that both start the same column name are equal. -/
theorem country_unique {h c c0 m m0 : String} (hl : c.length = 2) (hl0 : c0.length = 2)
    (h1 : hasPrefixStr h (sprintfJoin c m) = true)
    (h2 : hasPrefixStr h (sprintfJoin c0 m0) = true) : c = c0 := by
  rw [hasPrefixStr_iff, sprintfJoin_data] at h1 h2
  have p1 : c.data <+: h.data := (List.prefix_append _ _).trans h1
  have p2 : c0.data <+: h.data := (List.prefix_append _ _).trans h2
  have hlen : c.data.length = c0.data.length := by
    have a1 : c.data.length = 2 := hl
    have a2 : c0.data.length = 2 := hl0
    omega
  have q : c.data <+: c0.data := List.prefix_of_prefix_length_le p1 p2 (le_of_eq hlen)
  have e : c.data = c0.data := q.eq_of_length hlen
  exact String.ext e

theorem indexColumn_sound (cs : List String) (column : String) (j : Nat) (Q : String → Prop)
    (hdr : List (Nat × String))
    (hQ : ∀ col c, (j, col) ∈ hdr → matchCountry col column cs = some c → Q c)
    (m : Indices) (hm : ∀ c, m j = some c → Q c) :
    ∀ c, indexColumn cs column hdr m j = some c → Q c := by
  induction hdr generalizing m with
  | nil => simpa [indexColumn] using hm
  | cons p rest ih =>
    obtain ⟨k, col⟩ := p
    have hQ2 : ∀ col c, (j, col) ∈ rest → matchCountry col column cs = some c → Q c :=
      fun col c hmem => hQ col c (List.mem_cons_of_mem _ hmem)
    unfold indexColumn
    cases hmc : matchCountry col column cs with
    | none => exact ih hQ2 m hm
    | some c0 =>
      refine ih hQ2 _ ?_
      intro c hc
      unfold Indices.set at hc
      split at hc
      · rename_i hjk
        subst hjk
        simp only [Option.some.injEq] at hc
        subst hc
        exact hQ col c0 (List.mem_cons_self _ _) hmc
      · exact hm c hc

theorem indexColumns_sound (cs : List String) (hdr : List (Nat × String)) (j : Nat)
    (Q : String → Prop) (cols : List String)
    (hQ : ∀ column ∈ cols, ∀ col c, (j, col) ∈ hdr →
      matchCountry col column cs = some c → Q c)
    (m : Indices) (hm : ∀ c, m j = some c → Q c) :
    ∀ c, indexColumns cs hdr cols m j = some c → Q c := by
  induction cols generalizing m with
  | nil => simpa [indexColumns] using hm
  | cons column rest ih =>
    unfold indexColumns
    refine ih (fun column0 h0 => hQ column0 (List.mem_cons_of_mem _ h0)) _ ?_
    exact indexColumn_sound cs column j Q hdr (hQ column (List.mem_cons_self _ _)) m hm

theorem indexColumn_keep (cs : List String) (column : String) (j : Nat) (c : String)
    (hdr : List (Nat × String))
    (hu : ∀ col c0, (j, col) ∈ hdr → matchCountry col column cs = some c0 → c0 = c)
    (m : Indices) (hm : m j = some c) : indexColumn cs column hdr m j = some c := by
  induction hdr generalizing m with
  | nil => simpa [indexColumn] using hm
  | cons p rest ih =>
    obtain ⟨k, col⟩ := p
    have hu2 : ∀ col c0, (j, col) ∈ rest → matchCountry col column cs = some c0 → c0 = c :=
      fun col c0 hmem => hu col c0 (List.mem_cons_of_mem _ hmem)
    unfold indexColumn
    cases hmc : matchCountry col column cs with
    | none => exact ih hu2 m hm
    | some c0 =>
      refine ih hu2 _ ?_
      unfold Indices.set
      split
      · rename_i hjk
        subst hjk
        rw [hu col c0 (List.mem_cons_self _ _) hmc]
      · exact hm

theorem indexColumn_hit (cs : List String) (column : String) (j : Nat) (c col0 : String)
    (hdr : List (Nat × String))
    (hu : ∀ col c0, (j, col) ∈ hdr → matchCountry col column cs = some c0 → c0 = c)
    (hmem : (j, col0) ∈ hdr) (hmc : matchCountry col0 column cs = some c)
    (m : Indices) : indexColumn cs column hdr m j = some c := by
  induction hdr generalizing m with
  | nil => simp at hmem
  | cons p rest ih =>
    obtain ⟨k, col⟩ := p
    have hu2 : ∀ col c0, (j, col) ∈ rest → matchCountry col column cs = some c0 → c0 = c :=
      fun col c0 hmem => hu col c0 (List.mem_cons_of_mem _ hmem)
    rcases List.mem_cons.mp hmem with heq | hrest
    · simp only [Prod.mk.injEq] at heq
      obtain ⟨rfl, rfl⟩ := heq
      unfold indexColumn
      simp only [hmc]
      exact indexColumn_keep cs column j c rest hu2 _ (by simp [Indices.set])
    · unfold indexColumn
      cases matchCountry col column cs with
      | none => exact ih hu2 hrest m
      | some c0 => exact ih hu2 hrest _

theorem indexColumns_keep (cs : List String) (hdr : List (Nat × String)) (j : Nat)
    (c : String) (cols : List String)
    (hu : ∀ column ∈ cols, ∀ col c0, (j, col) ∈ hdr →
      matchCountry col column cs = some c0 → c0 = c)
    (m : Indices) (hm : m j = some c) : indexColumns cs hdr cols m j = some c := by
  induction cols generalizing m with
  | nil => simpa [indexColumns] using hm
  | cons column rest ih =>
    unfold indexColumns
    refine ih (fun column0 h0 => hu column0 (List.mem_cons_of_mem _ h0)) _ ?_
    exact indexColumn_keep cs column j c hdr (hu column (List.mem_cons_self _ _)) m hm

theorem indexColumns_hit (cs : List String) (hdr : List (Nat × String)) (j : Nat)
    (c col0 column0 : String) (cols : List String)
    (hu : ∀ column ∈ cols, ∀ col c0, (j, col) ∈ hdr →
      matchCountry col column cs = some c0 → c0 = c)
    (hcol : column0 ∈ cols) (hmem : (j, col0) ∈ hdr)
    (hmc : matchCountry col0 column0 cs = some c)
    (m : Indices) : indexColumns cs hdr cols m j = some c := by
  induction cols generalizing m with
  | nil => simp at hcol
  | cons column rest ih =>
    have hu2 := fun column1 (h1 : column1 ∈ rest) => hu column1 (List.mem_cons_of_mem _ h1)
    unfold indexColumns
    rcases List.mem_cons.mp hcol with rfl | hrest
    · exact indexColumns_keep cs hdr j c rest hu2 _
        (indexColumn_hit cs column0 j c col0 hdr (hu column0 (List.mem_cons_self _ _)) hmem hmc m)
    · exact ih hu2 hrest _

/-- Characterisation of the index at a position that does not hold the
timestamp column, for any iteration order in which every country code has
length two. -/
theorem buildIndices_iff (cs cols : List String) (hdr : List (Nat × String)) (j : Nat)
    (h : String) (hlen : ∀ c ∈ cs, c.length = 2)
    (hfun : ∀ col, (j, col) ∈ hdr → col = h) (hne : h ≠ "utc_timestamp") (c : String) :
    buildIndices cs cols hdr j = some c ↔
      (j, h) ∈ hdr ∧ c ∈ cs ∧ ∃ m ∈ cols, hasPrefixStr h (sprintfJoin c m) = true := by
  constructor
  · intro hc
    refine indexColumns_sound cs hdr j
      (fun c => (j, h) ∈ hdr ∧ c ∈ cs ∧ ∃ m ∈ cols, hasPrefixStr h (sprintfJoin c m) = true)
      cols ?_ Indices.empty (by simp [Indices.empty]) c hc
    intro column hcol col c0 hmem hmc
    have hcolh := hfun col hmem
    subst hcolh
    refine ⟨hmem, matchCountry_mem hmc, column, hcol, ?_⟩
    rcases matchCountry_cond hmc with h1 | h1
    · exact absurd h1 hne
    · exact h1
  · rintro ⟨hmem, hc, m, hm, hp⟩
    obtain ⟨c0, hc0⟩ := matchCountry_isSome hc hp
    have hc0c : c0 = c := by
      rcases matchCountry_cond hc0 with h1 | h1
      · exact absurd h1 hne
      · exact country_unique (hlen c0 (matchCountry_mem hc0)) (hlen c hc) h1 hp
    subst hc0c
    refine indexColumns_hit cs hdr j c0 h m cols ?_ hm hmem hc0 Indices.empty
    intro column _ col c1 hmem1 hmc1
    have hcolh := hfun col hmem1
    subst hcolh
    rcases matchCountry_cond hmc1 with h1 | h1
    · exact absurd h1 hne
    · exact country_unique (hlen c1 (matchCountry_mem hmc1)) (hlen c0 hc) h1 hp

theorem countries_length : ∀ c ∈ countries, c.length = 2 := by decide

/-! ## Claims on the index construction -/

/-- C5: at every header position `j` whose column name `h` is not
"utc_timestamp", the index built by `parseDataset` maps `j` to country `c`
exactly when `c` is a configured country and `h` starts with `c`, an
underscore and a configured column name; a position holding
"DE_load_actual_entsoe_transparency" is mapped to "DE"; and the entry is the
same for every iteration order of the countries, the column names and the
header positions. -/
theorem C5_index_entry (header : List String) (j : Nat) (h : String)
    (hj : header[j]? = some h) (hne : h ≠ "utc_timestamp") :
    (∀ c, buildIndices countries columns (rangeFrom header 0) j = some c ↔
      c ∈ countries ∧ ∃ m ∈ columns, hasPrefixStr h (sprintfJoin c m) = true) ∧
    (h = "DE_load_actual_entsoe_transparency" →
      buildIndices countries columns (rangeFrom header 0) j = some "DE") ∧
    (∀ cs cols hdr, cs.Perm countries → cols.Perm columns → hdr.Perm (rangeFrom header 0) →
      buildIndices cs cols hdr j = buildIndices countries columns (rangeFrom header 0) j) := by
  have hmem : (j, h) ∈ rangeFrom header 0 := (mem_rangeFrom header 0 j h).mpr ⟨Nat.zero_le _, hj⟩
  have hfun : ∀ col, (j, col) ∈ rangeFrom header 0 → col = h := by
    intro col hcol
    have h2 := ((mem_rangeFrom header 0 j col).mp hcol).2
    simp only [Nat.sub_zero] at h2
    rw [hj] at h2
    exact (Option.some.inj h2).symm
  have key : ∀ c, buildIndices countries columns (rangeFrom header 0) j = some c ↔
      c ∈ countries ∧ ∃ m ∈ columns, hasPrefixStr h (sprintfJoin c m) = true := by
    intro c
    rw [buildIndices_iff countries columns (rangeFrom header 0) j h countries_length hfun hne c]
    simp [hmem]
  refine ⟨key, ?_, ?_⟩
  · intro hDE
    subst hDE
    exact (key "DE").mpr ⟨by decide, "load_actual_entsoe_transparency", by decide, by decide⟩
  · intro cs cols hdr hcs hcols hhdr
    have hlen : ∀ c ∈ cs, c.length = 2 := fun c hc => countries_length c (hcs.mem_iff.mp hc)
    have hfun2 : ∀ col, (j, col) ∈ hdr → col = h := fun col hcol => hfun col (hhdr.mem_iff.mp hcol)
    apply Option.ext
    intro c
    rw [Option.mem_def, Option.mem_def, key c,
      buildIndices_iff cs cols hdr j h hlen hfun2 hne c]
    constructor
    · rintro ⟨_, hc, m, hm, hp⟩
      exact ⟨hcs.mem_iff.mp hc, m, hcols.mem_iff.mp hm, hp⟩
    · rintro ⟨hc, m, hm, hp⟩
      exact ⟨hhdr.mem_iff.mpr hmem, hcs.mem_iff.mpr hc, m, hcols.mem_iff.mpr hm, hp⟩

/-- Witness for C5: the second column of a two-column header. -/
theorem C5_index_entry_witness :
    buildIndices countries columns
      (rangeFrom ["utc_timestamp", "DE_load_actual_entsoe_transparency"] 0) 1 = some "DE" :=
  (C5_index_entry ["utc_timestamp", "DE_load_actual_entsoe_transparency"] 1
    "DE_load_actual_entsoe_transparency" (by decide) (by decide)).2.1 rfl

/-- Every position of a "utc_timestamp" column is a key of the index and is
mapped to the first configured country. -/
theorem buildIndices_timestamp (header : List String) (j : Nat)
    (hj : header[j]? = some "utc_timestamp") :
    buildIndices countries columns (rangeFrom header 0) j = some "DE" := by
  have hmem : (j, "utc_timestamp") ∈ rangeFrom header 0 :=
    (mem_rangeFrom header 0 j _).mpr ⟨Nat.zero_le _, hj⟩
  have hfun : ∀ col, (j, col) ∈ rangeFrom header 0 → col = "utc_timestamp" := by
    intro col hcol
    have h2 := ((mem_rangeFrom header 0 j col).mp hcol).2
    simp only [Nat.sub_zero] at h2
    rw [hj] at h2
    exact (Option.some.inj h2).symm
  refine indexColumns_hit countries (rangeFrom header 0) j "DE" "utc_timestamp" "utc_timestamp"
    columns ?_ (by decide) hmem (by decide) Indices.empty
  intro column _ col c0 hcol hmc
  rw [hfun col hcol] at hmc
  have h3 : matchCountry "utc_timestamp" column countries = some "DE" :=
    matchCountry_timestamp column "DE" _
  rw [h3] at hmc
  exact (Option.some.inj hmc).symm

/-! ## Lemmas on the loops -/

theorem sweepRow_cons (L : Lib) (header : List String) (indices : Indices)
    (value : String) (rest : List String) (j : Nat) (r : record) :
    sweepRow L header indices (value :: rest) j r =
      match cellStep L header indices j value r with
      | .error e => .error e
      | .ok r2 => sweepRow L header indices rest (j + 1) r2 := by
  rw [sweepRow]
  unfold cellStep
  cases header[j]? with
  | none => rfl
  | some name =>
    simp only []
    by_cases hn : name = "utc_timestamp"
    · simp only [hn, if_true]
      cases L.parseTime value with
      | none => rfl
      | some t => simp
    · simp only [hn, if_false]
      cases indices j with
      | none => rfl
      | some country =>
        simp only []
        cases sliceFrom name (country.length + 1) with
        | none => rfl
        | some column =>
          simp only []
          by_cases h1 : column = "load_actual_entsoe_transparency"
          · simp only [h1, if_true]
            cases mustParseFloat L value <;> rfl
          · simp only [h1, if_false]
            by_cases h2 : column = "load_forecast_entsoe_transparency"
            · simp only [h2, if_true]
              cases mustParseFloat L value <;> rfl
            · simp only [h2, if_false]

/-- Loop-invariant rule for the column sweep. -/
theorem sweepRow_invariant (L : Lib) (header : List String) (indices : Indices)
    (P : Nat → record → Prop) (row : List String) (j : Nat) (r out : record)
    (h0 : P j r)
    (hstep : ∀ k value r1 r2, j ≤ k → row[k - j]? = some value → P k r1 →
      cellStep L header indices k value r1 = .ok r2 → P (k + 1) r2)
    (hok : sweepRow L header indices row j r = .ok out) : P (j + row.length) out := by
  induction row generalizing j r with
  | nil =>
    simp only [sweepRow, Except.ok.injEq] at hok
    subst hok
    simpa using h0
  | cons value rest ih =>
    rw [sweepRow_cons] at hok
    cases hc : cellStep L header indices j value r with
    | error e => simp [hc] at hok
    | ok r2 =>
      simp only [hc] at hok
      have h1 : P (j + 1) r2 := hstep j value r r2 (le_refl _) (by simp) h0 hc
      have := ih (j + 1) r2 h1 (fun k v r1 r3 hk hv hp hs => hstep k v r1 r3 (by omega)
        (by
          have e : k - j = (k - (j + 1)) + 1 := by omega
          rw [e]
          simpa using hv) hp hs) hok
      have e2 : j + (value :: rest).length = j + 1 + rest.length := by
        simp only [List.length_cons]; omega
      rw [e2]
      exact this

/-- Totality rule for the column sweep. -/
theorem sweepRow_total (L : Lib) (header : List String) (indices : Indices)
    (row : List String) (j : Nat) (r : record)
    (hstep : ∀ k value r1, j ≤ k → row[k - j]? = some value →
      ∃ r2, cellStep L header indices k value r1 = .ok r2) :
    ∃ out, sweepRow L header indices row j r = .ok out := by
  induction row generalizing j r with
  | nil => exact ⟨r, by simp [sweepRow]⟩
  | cons value rest ih =>
    rw [sweepRow_cons]
    obtain ⟨r2, h2⟩ := hstep j value r (le_refl _) (by simp)
    simp only [h2]
    exact ih (j + 1) r2 (fun k v r1 hk hv => hstep k v r1 (by omega)
      (by
        have e : k - j = (k - (j + 1)) + 1 := by omega
        rw [e]
        simpa using hv))

theorem filterLoop_ok_iff (L : Lib) (rows filtered out : List (List String)) :
    filterLoop L rows filtered = .ok out ↔
      (∀ row ∈ rows, (rowTime L row).isSome = true) ∧ out = filtered ++ keptRows L rows := by
  induction rows generalizing filtered with
  | nil =>
    simp only [filterLoop, keptRows, List.filter_nil, List.append_nil, List.not_mem_nil,
      false_implies, implies_true, true_and, Except.ok.injEq]
    exact eq_comm
  | cons row rest ih =>
    cases row with
    | nil => simp [filterLoop, rowTime]
    | cons cell cells =>
      unfold filterLoop
      simp only [List.getElem?_cons_zero, List.mem_cons, forall_eq_or_imp, keptRows,
        List.filter_cons, survives, rowTime]
      cases L.parseTime cell with
      | none => simp
      | some date =>
        simp only [Option.isSome_some, true_and]
        by_cases ha : date.After filterCutoff = true
        · simp only [ha, if_true]
          rw [ih]
          simp [keptRows, survives, rowTime]
        · simp only [ha, Bool.false_eq_true, if_false]
          rw [ih]
          simp [keptRows, survives, rowTime]

theorem filterLoop_error (L : Lib) (rows filtered : List (List String))
    (hne : ∀ row ∈ rows, row ≠ [])
    (hbad : ∃ row ∈ rows, (rowTime L row).isSome = false) :
    filterLoop L rows filtered = .error .parsingDatetime := by
  induction rows generalizing filtered with
  | nil => simp at hbad
  | cons row rest ih =>
    unfold filterLoop
    have hrow : row ≠ [] := hne row (List.mem_cons_self _ _)
    obtain ⟨cell, cells, rfl⟩ := List.exists_cons_of_ne_nil hrow
    simp only [List.getElem?_cons_zero]
    cases hp : L.parseTime cell with
    | none => rfl
    | some date =>
      have hrest : ∃ row ∈ rest, (rowTime L row).isSome = false := by
        obtain ⟨row0, hmem, hb⟩ := hbad
        rcases List.mem_cons.mp hmem with rfl | hm
        · simp [rowTime, hp] at hb
        · exact ⟨row0, hm, hb⟩
      have hne2 : ∀ row ∈ rest, row ≠ [] := fun row0 h0 => hne row0 (List.mem_cons_of_mem _ h0)
      simp only []
      split
      · exact ih _ hne2 hrest
      · exact ih _ hne2 hrest

theorem recordsLoop_ok_iff (L : Lib) (header : List String) (indices : Indices)
    (rows : List (List String)) (records out : List record) :
    recordsLoop L header indices rows records = .ok out ↔
      ∃ rs, List.Forall₂ (fun row r => sweepRow L header indices row 0 record.zero = .ok r)
        rows rs ∧ out = records ++ rs := by
  induction rows generalizing records with
  | nil =>
    simp only [recordsLoop, Except.ok.injEq, List.forall₂_nil_left_iff, exists_eq_left,
      List.append_nil]
    exact eq_comm
  | cons row rest ih =>
    unfold recordsLoop
    cases hs : sweepRow L header indices row 0 record.zero with
    | error e =>
      constructor
      · intro h
        cases h
      · rintro ⟨rs, hrs, _⟩
        cases hrs with
        | cons h1 _ => rw [hs] at h1; cases h1
    | ok r =>
      simp only [ih]
      constructor
      · rintro ⟨rs, h1, h2⟩
        exact ⟨r :: rs, List.Forall₂.cons hs h1, by simp [h2]⟩
      · rintro ⟨rs, h1, h2⟩
        cases h1 with
        | cons ha hb =>
          rename_i r0 rs0
          rw [hs] at ha
          cases ha
          exact ⟨rs0, hb, by simp [h2]⟩

/-- What a successful run of `parseDataset` amounts to. -/
theorem parseDataset_ok_iff (L : Lib) (header : List String) (body : List (List String))
    (rs : List record) :
    parseDataset L ⟨some header, some body⟩ = .ok rs ↔
      (∀ row ∈ body, (rowTime L row).isSome = true) ∧
      List.Forall₂ (fun row r => sweepRow L header (indicesOf header) row 0 record.zero = .ok r)
        (keptRows L body) rs := by
  unfold parseDataset
  simp only []
  cases hf : filterLoop L body [] with
  | error e =>
    constructor
    · intro h
      cases h
    · rintro ⟨hall, _⟩
      have := (filterLoop_ok_iff L body [] (keptRows L body)).mpr ⟨hall, by simp⟩
      rw [hf] at this
      cases this
  | ok filtered =>
    obtain ⟨hall, hk⟩ := (filterLoop_ok_iff L body [] filtered).mp hf
    simp only [List.nil_append] at hk
    subst hk
    simp only [recordsLoop_ok_iff, List.nil_append, exists_eq_right', indicesOf]
    constructor
    · intro h
      exact ⟨hall, h⟩
    · intro h
      exact h.2

/-- The successful outcomes of the loop body, case by case. -/
theorem cellStep_ok_cases (L : Lib) (header : List String) (indices : Indices)
    (k : Nat) (value : String) (r1 r2 : record)
    (h : cellStep L header indices k value r1 = .ok r2) :
    ∃ name, header[k]? = some name ∧
      ((name = "utc_timestamp" ∧ ∃ t, L.parseTime value = some t ∧
          r2 = { r1 with DateTimeUTC := t }) ∨
       (name ≠ "utc_timestamp" ∧ indices k = none ∧ r2 = r1) ∨
       (name ≠ "utc_timestamp" ∧ ∃ c column, indices k = some c ∧
          sliceFrom name (c.length + 1) = some column ∧
          ((column = "load_actual_entsoe_transparency" ∧ ∃ f, mustParseFloat L value = .ok f ∧
              r2 = { r1 with CountryCode := c, LoadActual := f }) ∨
           (column ≠ "load_actual_entsoe_transparency" ∧
              column = "load_forecast_entsoe_transparency" ∧
              ∃ f, mustParseFloat L value = .ok f ∧
              r2 = { r1 with CountryCode := c, LoadForecast := f }) ∨
           (column ≠ "load_actual_entsoe_transparency" ∧
              column ≠ "load_forecast_entsoe_transparency" ∧
              r2 = { r1 with CountryCode := c })))) := by
  unfold cellStep at h
  cases hh : header[k]? with
  | none => simp [hh] at h
  | some name =>
    refine ⟨name, rfl, ?_⟩
    simp only [hh] at h
    by_cases hn : name = "utc_timestamp"
    · left
      simp only [hn, if_true] at h
      cases hp : L.parseTime value with
      | none => simp [hp] at h
      | some t =>
        simp only [hp, Except.ok.injEq] at h
        exact ⟨hn, t, rfl, h.symm⟩
    · right
      simp only [hn, if_false] at h
      cases hi : indices k with
      | none =>
        simp only [hi, Except.ok.injEq] at h
        exact Or.inl ⟨hn, rfl, h.symm⟩
      | some c =>
        right
        simp only [hi] at h
        cases hs : sliceFrom name (c.length + 1) with
        | none => simp [hs] at h
        | some column =>
          refine ⟨hn, c, column, rfl, hs, ?_⟩
          simp only [hs] at h
          by_cases h1 : column = "load_actual_entsoe_transparency"
          · left
            simp only [h1, if_true] at h
            cases hm : mustParseFloat L value with
            | error e => simp [hm] at h
            | ok f =>
              simp only [hm, Except.ok.injEq] at h
              exact ⟨h1, f, rfl, h.symm⟩
          · right
            simp only [h1, if_false] at h
            by_cases h2 : column = "load_forecast_entsoe_transparency"
            · left
              simp only [h2, if_true] at h
              cases hm : mustParseFloat L value with
              | error e => simp [hm] at h
              | ok f =>
                simp only [hm, Except.ok.injEq] at h
                exact ⟨h1, h2, f, rfl, h.symm⟩
            · right
              simp only [h2, if_false, Except.ok.injEq] at h
              exact ⟨h1, h2, h.symm⟩

/-- Last-write rule of the column sweep for one field of the record: `touch`
tells the positions that assign the field, `W` what they assign. -/
theorem sweepRow_lastWrite (L : Lib) (header : List String) (indices : Indices)
    {V : Type} (get : record → V) (touch : Nat → Prop) (W : Nat → String → V → Prop)
    (hW : ∀ k value r1 r2, cellStep L header indices k value r1 = .ok r2 →
      (touch k → W k value (get r2)) ∧ (¬ touch k → get r2 = get r1))
    (row : List String) (r0 out : record)
    (hok : sweepRow L header indices row 0 r0 = .ok out) :
    (∀ j value, row[j]? = some value → touch j →
      (∀ k, j < k → k < row.length → ¬ touch k) → W j value (get out)) ∧
    ((∀ k, k < row.length → ¬ touch k) → get out = get r0) := by
  have inv := sweepRow_invariant L header indices
    (fun k r => (∀ j value, j < k → row[j]? = some value → touch j →
        (∀ i, j < i → i < k → ¬ touch i) → W j value (get r)) ∧
      ((∀ i, i < k → ¬ touch i) → get r = get r0))
    row 0 r0 out ⟨fun j value hj => absurd hj (Nat.not_lt_zero _), fun _ => rfl⟩ ?_ hok
  · simp only [Nat.zero_add] at inv
    refine ⟨fun j value hv ht hmax => inv.1 j value ?_ hv ht hmax, inv.2⟩
    by_contra hlt
    rw [List.getElem?_eq_none (by omega)] at hv
    cases hv
  · intro k value r1 r2 _ hv hP hs
    simp only [Nat.sub_zero] at hv
    obtain ⟨hw1, hw2⟩ := hW k value r1 r2 hs
    by_cases ht : touch k
    · refine ⟨?_, fun hnone => absurd ht (hnone k (Nat.lt_succ_self k))⟩
      intro j value0 hj hv0 htj hmax
      by_cases hjk : j = k
      · subst hjk
        rw [hv] at hv0
        cases hv0
        exact hw1 ht
      · exact absurd ht (hmax k (by omega) (Nat.lt_succ_self k))
    · have hg := hw2 ht
      refine ⟨?_, ?_⟩
      · intro j value0 hj hv0 htj hmax
        have hjk : j ≠ k := fun e => ht (e ▸ htj)
        rw [hg]
        exact hP.1 j value0 (by omega) hv0 htj (fun i h1 h2 => hmax i h1 (by omega))
      · intro hnone
        rw [hg]
        exact hP.2 (fun i hi => hnone i (by omega))

theorem cellStep_country (L : Lib) (header : List String) (indices : Indices)
    (k : Nat) (value : String) (r1 r2 : record)
    (h : cellStep L header indices k value r1 = .ok r2) :
    (writesCountry header indices k → indices k = some r2.CountryCode) ∧
    (¬ writesCountry header indices k → r2.CountryCode = r1.CountryCode) := by
  obtain ⟨name, hname, hcase⟩ := cellStep_ok_cases L header indices k value r1 r2 h
  rcases hcase with ⟨hn, t, _, rfl⟩ | ⟨hn, hi, rfl⟩ | ⟨hn, c, column, hi, _, hcol⟩
  · refine ⟨?_, fun _ => rfl⟩
    rintro ⟨name0, c, h0, hne, _⟩
    rw [hname] at h0
    cases h0
    exact absurd hn hne
  · refine ⟨?_, fun _ => rfl⟩
    rintro ⟨name0, c, _, _, hc⟩
    rw [hi] at hc
    cases hc
  · have hw : writesCountry header indices k := ⟨name, c, hname, hn, hi⟩
    refine ⟨fun _ => ?_, fun hnw => absurd hw hnw⟩
    rcases hcol with ⟨_, f, _, rfl⟩ | ⟨_, _, f, _, rfl⟩ | ⟨_, _, rfl⟩ <;> exact hi

theorem cellStep_time (L : Lib) (header : List String) (indices : Indices)
    (k : Nat) (value : String) (r1 r2 : record)
    (h : cellStep L header indices k value r1 = .ok r2) :
    (header[k]? = some "utc_timestamp" → L.parseTime value = some r2.DateTimeUTC) ∧
    (¬ header[k]? = some "utc_timestamp" → r2.DateTimeUTC = r1.DateTimeUTC) := by
  obtain ⟨name, hname, hcase⟩ := cellStep_ok_cases L header indices k value r1 r2 h
  rcases hcase with ⟨hn, t, ht, rfl⟩ | ⟨hn, hi, rfl⟩ | ⟨hn, c, column, hi, _, hcol⟩
  · exact ⟨fun _ => ht, fun hne => absurd (hn ▸ hname) hne⟩
  · refine ⟨fun hu => ?_, fun _ => rfl⟩
    rw [hname] at hu
    exact absurd (Option.some.inj hu) hn
  · refine ⟨fun hu => ?_, fun _ => ?_⟩
    · rw [hname] at hu
      exact absurd (Option.some.inj hu) hn
    · rcases hcol with ⟨_, f, _, rfl⟩ | ⟨_, _, f, _, rfl⟩ | ⟨_, _, rfl⟩ <;> rfl

theorem cellStep_actual (L : Lib) (header : List String) (indices : Indices)
    (k : Nat) (value : String) (r1 r2 : record)
    (h : cellStep L header indices k value r1 = .ok r2) :
    (writesMetric header indices "load_actual_entsoe_transparency" k →
      mustParseFloat L value = .ok r2.LoadActual) ∧
    (¬ writesMetric header indices "load_actual_entsoe_transparency" k →
      r2.LoadActual = r1.LoadActual) := by
  obtain ⟨name, hname, hcase⟩ := cellStep_ok_cases L header indices k value r1 r2 h
  rcases hcase with ⟨hn, t, _, rfl⟩ | ⟨hn, hi, rfl⟩ | ⟨hn, c, column, hi, hs, hcol⟩
  · refine ⟨?_, fun _ => rfl⟩
    rintro ⟨name0, c, h0, hne, _⟩
    rw [hname] at h0
    cases h0
    exact absurd hn hne
  · refine ⟨?_, fun _ => rfl⟩
    rintro ⟨name0, c, _, _, hc, _⟩
    rw [hi] at hc
    cases hc
  · have key : writesMetric header indices "load_actual_entsoe_transparency" k ↔
        column = "load_actual_entsoe_transparency" := by
      constructor
      · rintro ⟨name0, c0, h0, _, hc0, hs0⟩
        rw [hname] at h0
        cases h0
        rw [hi] at hc0
        cases hc0
        rw [hs] at hs0
        exact Option.some.inj hs0
      · intro hc
        exact ⟨name, c, hname, hn, hi, hc ▸ hs⟩
    rw [key]
    rcases hcol with ⟨h1, f, hf, rfl⟩ | ⟨h1, _, f, _, rfl⟩ | ⟨h1, _, rfl⟩
    · exact ⟨fun _ => hf, fun hne => absurd h1 hne⟩
    · exact ⟨fun he => absurd he h1, fun _ => rfl⟩
    · exact ⟨fun he => absurd he h1, fun _ => rfl⟩

theorem cellStep_forecast (L : Lib) (header : List String) (indices : Indices)
    (k : Nat) (value : String) (r1 r2 : record)
    (h : cellStep L header indices k value r1 = .ok r2) :
    (writesMetric header indices "load_forecast_entsoe_transparency" k →
      mustParseFloat L value = .ok r2.LoadForecast) ∧
    (¬ writesMetric header indices "load_forecast_entsoe_transparency" k →
      r2.LoadForecast = r1.LoadForecast) := by
  obtain ⟨name, hname, hcase⟩ := cellStep_ok_cases L header indices k value r1 r2 h
  rcases hcase with ⟨hn, t, _, rfl⟩ | ⟨hn, hi, rfl⟩ | ⟨hn, c, column, hi, hs, hcol⟩
  · refine ⟨?_, fun _ => rfl⟩
    rintro ⟨name0, c, h0, hne, _⟩
    rw [hname] at h0
    cases h0
    exact absurd hn hne
  · refine ⟨?_, fun _ => rfl⟩
    rintro ⟨name0, c, _, _, hc, _⟩
    rw [hi] at hc
    cases hc
  · have key : writesMetric header indices "load_forecast_entsoe_transparency" k ↔
        column = "load_forecast_entsoe_transparency" := by
      constructor
      · rintro ⟨name0, c0, h0, _, hc0, hs0⟩
        rw [hname] at h0
        cases h0
        rw [hi] at hc0
        cases hc0
        rw [hs] at hs0
        exact Option.some.inj hs0
      · intro hc
        exact ⟨name, c, hname, hn, hi, hc ▸ hs⟩
    rw [key]
    rcases hcol with ⟨h1, f, hf, rfl⟩ | ⟨h1, h2, f, hf, rfl⟩ | ⟨h1, h2, rfl⟩
    · refine ⟨fun he => ?_, fun _ => rfl⟩
      rw [h1] at he
      exact absurd he (by decide)
    · exact ⟨fun _ => hf, fun hne => absurd h2 hne⟩
    · exact ⟨fun he => absurd he h2, fun _ => rfl⟩

/-! ## Column names and the index -/

theorem sliceFrom_join (c m : String) : sliceFrom (sprintfJoin c m) (c.length + 1) = some m := by
  unfold sliceFrom
  rw [sprintfJoin_data]
  have hl : c.length = c.data.length := rfl
  rw [hl, if_pos (by simp)]
  have e : c.data ++ '_' :: m.data = (c.data ++ ['_']) ++ m.data := by simp
  have e2 : c.data.length + 1 = (c.data ++ ['_']).length := by simp
  rw [e, e2, List.drop_left]

theorem join_ne_timestamp (c m : String) (hl : c.length = 2) :
    sprintfJoin c m ≠ "utc_timestamp" := by
  intro h
  have hd := congrArg String.data h
  rw [sprintfJoin_data] at hd
  have hl2 : c.data.length = 2 := hl
  match hc : c.data, hl2 with
  | [x, y], _ =>
    rw [hc] at hd
    have hd2 : x :: y :: '_' :: m.data =
        ['u', 't', 'c', '_', 't', 'i', 'm', 'e', 's', 't', 'a', 'm', 'p'] := hd
    simp only [List.cons.injEq] at hd2
    exact absurd hd2.2.2.1 (by decide)

theorem slice_of_hasPrefix {name c m : String}
    (hp : hasPrefixStr name (sprintfJoin c m) = true) :
    ∃ column, sliceFrom name (c.length + 1) = some column ∧
      name.data = c.data ++ '_' :: column.data := by
  rw [hasPrefixStr_iff, sprintfJoin_data] at hp
  obtain ⟨t, ht⟩ := hp
  refine ⟨String.mk (m.data ++ t), ?_, ?_⟩
  · unfold sliceFrom
    have hl : c.length = c.data.length := rfl
    rw [← ht, hl, if_pos (by simp)]
    have e : c.data ++ '_' :: m.data ++ t = (c.data ++ ['_']) ++ (m.data ++ t) := by simp
    have e2 : c.data.length + 1 = (c.data ++ ['_']).length := by simp
    rw [e, e2, List.drop_left]
  · rw [← ht]
    simp

theorem name_of_slice {name c m metric : String}
    (hp : hasPrefixStr name (sprintfJoin c m) = true)
    (hs : sliceFrom name (c.length + 1) = some metric) : name = sprintfJoin c metric := by
  obtain ⟨column, h1, h2⟩ := slice_of_hasPrefix hp
  rw [hs] at h1
  cases h1
  apply String.ext
  rw [sprintfJoin_data, h2]

theorem indicesOf_iff (header : List String) (j : Nat) (h : String)
    (hj : header[j]? = some h) (hne : h ≠ "utc_timestamp") (c : String) :
    indicesOf header j = some c ↔
      c ∈ countries ∧ ∃ m ∈ columns, hasPrefixStr h (sprintfJoin c m) = true := by
  have hmem : (j, h) ∈ rangeFrom header 0 := (mem_rangeFrom header 0 j h).mpr ⟨Nat.zero_le _, hj⟩
  have hfun : ∀ col, (j, col) ∈ rangeFrom header 0 → col = h := by
    intro col hcol
    have h2 := ((mem_rangeFrom header 0 j col).mp hcol).2
    simp only [Nat.sub_zero] at h2
    rw [hj] at h2
    exact (Option.some.inj h2).symm
  unfold indicesOf
  rw [buildIndices_iff countries columns (rangeFrom header 0) j h countries_length hfun hne c]
  simp [hmem]

theorem indicesOf_mem (header : List String) (j : Nat) (c : String)
    (h : indicesOf header j = some c) : c ∈ countries := by
  refine indexColumns_sound countries (rangeFrom header 0) j (fun c => c ∈ countries) columns
    ?_ Indices.empty (by simp [Indices.empty]) c h
  intro column _ col c0 _ hmc
  exact matchCountry_mem hmc

theorem indicesOf_join (header : List String) (k : Nat) (c m : String)
    (hc : c ∈ countries) (hm : m ∈ columns) (hk : header[k]? = some (sprintfJoin c m)) :
    indicesOf header k = some c := by
  rw [indicesOf_iff header k _ hk (join_ne_timestamp c m (countries_length c hc)) c]
  refine ⟨hc, m, hm, ?_⟩
  rw [hasPrefixStr_iff]

theorem writesMetric_iff (header : List String) (metric : String) (hm : metric ∈ columns)
    (k : Nat) : writesMetric header (indicesOf header) metric k ↔ loadColumn header metric k := by
  constructor
  · rintro ⟨name, c, hname, hne, hi, hs⟩
    obtain ⟨hc, m, _, hp⟩ := (indicesOf_iff header k name hname hne c).mp hi
    exact ⟨c, hc, by rw [hname, name_of_slice hp hs]⟩
  · rintro ⟨c, hc, hk⟩
    exact ⟨sprintfJoin c metric, c, hk, join_ne_timestamp c metric (countries_length c hc),
      indicesOf_join header k c metric hc hm hk, sliceFrom_join c metric⟩

theorem forall₂_mem_right {α β : Type} {R : α → β → Prop} {l1 : List α} {l2 : List β}
    (h : List.Forall₂ R l1 l2) : ∀ b ∈ l2, ∃ a ∈ l1, R a b := by
  induction h with
  | nil => intro b hb; cases hb
  | cons hab _ ih =>
    intro b hb
    rcases List.mem_cons.mp hb with rfl | hmem
    · exact ⟨_, List.mem_cons_self _ _, hab⟩
    · obtain ⟨a, ha, hr⟩ := ih b hmem
      exact ⟨a, List.mem_cons_of_mem _ ha, hr⟩

theorem cellStep_indices_congr (L : Lib) (header : List String) (idx1 idx2 : Indices)
    (hagree : ∀ i, header[i]? ≠ some "utc_timestamp" → idx1 i = idx2 i)
    (k : Nat) (value : String) (r : record) :
    cellStep L header idx1 k value r = cellStep L header idx2 k value r := by
  unfold cellStep
  cases hh : header[k]? with
  | none => rfl
  | some name =>
    simp only []
    by_cases hn : name = "utc_timestamp"
    · simp only [hn, if_true]
    · simp only [hn, if_false]
      have : idx1 k = idx2 k := hagree k (by
        rw [hh]
        intro e
        exact hn (Option.some.inj e))
      rw [this]

theorem sweepRow_indices_congr (L : Lib) (header : List String) (idx1 idx2 : Indices)
    (hagree : ∀ i, header[i]? ≠ some "utc_timestamp" → idx1 i = idx2 i)
    (row : List String) (k : Nat) (r : record) :
    sweepRow L header idx1 row k r = sweepRow L header idx2 row k r := by
  induction row generalizing k r with
  | nil => simp [sweepRow]
  | cons value rest ih =>
    rw [sweepRow_cons, sweepRow_cons, cellStep_indices_congr L header idx1 idx2 hagree]
    cases cellStep L header idx2 k value r with
    | error e => rfl
    | ok r2 => exact ih (k + 1) r2

/-! ## Evaluation and totality of the loop body -/

theorem cellStep_eval_timestamp (L : Lib) (header : List String) (indices : Indices)
    (k : Nat) (value : String) (r : record) (t : Time)
    (hk : header[k]? = some "utc_timestamp") (ht : L.parseTime value = some t) :
    cellStep L header indices k value r = .ok { r with DateTimeUTC := t } := by
  unfold cellStep
  simp only [hk, if_true, ht]

theorem cellStep_eval_actual (L : Lib) (header : List String) (k : Nat) (value c : String)
    (r : record) (v : Float64) (hc : c ∈ countries)
    (hk : header[k]? = some (sprintfJoin c "load_actual_entsoe_transparency"))
    (hv : mustParseFloat L value = .ok v) :
    cellStep L header (indicesOf header) k value r =
      .ok { r with CountryCode := c, LoadActual := v } := by
  unfold cellStep
  simp only [hk, join_ne_timestamp c _ (countries_length c hc), if_false,
    indicesOf_join header k c _ hc (by decide) hk, sliceFrom_join, if_true, hv]

theorem cellStep_eval_forecast (L : Lib) (header : List String) (k : Nat) (value c : String)
    (r : record) (v : Float64) (hc : c ∈ countries)
    (hk : header[k]? = some (sprintfJoin c "load_forecast_entsoe_transparency"))
    (hv : mustParseFloat L value = .ok v) :
    cellStep L header (indicesOf header) k value r =
      .ok { r with CountryCode := c, LoadForecast := v } := by
  unfold cellStep
  have hne : ("load_forecast_entsoe_transparency" : String) ≠
      "load_actual_entsoe_transparency" := by decide
  simp only [hk, join_ne_timestamp c _ (countries_length c hc), if_false,
    indicesOf_join header k c _ hc (by decide) hk, sliceFrom_join, hne, if_true, hv]

theorem mustParseFloat_total (L : Lib) (value : String)
    (h : (decide (value = "") || (L.parseFloat value).isSome) = true) :
    ∃ v, mustParseFloat L value = .ok v := by
  unfold mustParseFloat
  by_cases he : value = ""
  · exact ⟨Float64.zero, by simp [he]⟩
  · simp only [he, decide_False, Bool.false_or] at h
    obtain ⟨v, hv⟩ := Option.isSome_iff_exists.mp h
    exact ⟨v, by simp [he, hv]⟩

theorem isLoadName_join (c metric : String) (hc : c ∈ countries)
    (hm : metric = "load_actual_entsoe_transparency" ∨
      metric = "load_forecast_entsoe_transparency") :
    isLoadName (sprintfJoin c metric) = true := by
  unfold isLoadName
  rw [List.any_eq_true]
  refine ⟨c, hc, ?_⟩
  rcases hm with rfl | rfl <;> simp

/-- The loop body succeeds on every cell that parses as its column
requires. -/
theorem cellStep_total (L : Lib) (header : List String) (k : Nat) (name value : String)
    (r : record) (hk : header[k]? = some name) (hp : cellParses L name value = true) :
    ∃ r2, cellStep L header (indicesOf header) k value r = .ok r2 := by
  unfold cellStep
  simp only [hk]
  unfold cellParses at hp
  by_cases hn : name = "utc_timestamp"
  · simp only [hn, if_true] at hp ⊢
    obtain ⟨t, ht⟩ := Option.isSome_iff_exists.mp hp
    simp only [ht]
    exact ⟨_, rfl⟩
  · simp only [hn, if_false] at hp ⊢
    cases hi : indicesOf header k with
    | none => exact ⟨r, rfl⟩
    | some c =>
      obtain ⟨hc, m, _, hpre⟩ := (indicesOf_iff header k name hk hn c).mp hi
      obtain ⟨column, hs, _⟩ := slice_of_hasPrefix hpre
      simp only [hs]
      by_cases h1 : column = "load_actual_entsoe_transparency"
      · have hname := name_of_slice hpre hs
        rw [hname, isLoadName_join c column hc (Or.inl h1), if_pos rfl] at hp
        obtain ⟨v, hv⟩ := mustParseFloat_total L value hp
        rw [if_pos h1]
        simp only [hv]
        exact ⟨_, rfl⟩
      · by_cases h2 : column = "load_forecast_entsoe_transparency"
        · have hname := name_of_slice hpre hs
          rw [hname, isLoadName_join c column hc (Or.inr h2), if_pos rfl] at hp
          obtain ⟨v, hv⟩ := mustParseFloat_total L value hp
          rw [if_neg h1, if_pos h2]
          simp only [hv]
          exact ⟨_, rfl⟩
        · rw [if_neg h1, if_neg h2]
          exact ⟨_, rfl⟩

theorem zipWith_all_getElem {α β : Type} (f : α → β → Bool) (l1 : List α) (l2 : List β)
    (h : (List.zipWith f l1 l2).all id = true) (k : Nat) (a : α) (b : β)
    (h1 : l1[k]? = some a) (h2 : l2[k]? = some b) : f a b = true := by
  induction l1 generalizing l2 k with
  | nil => simp at h1
  | cons x xs ih =>
    cases l2 with
    | nil => simp at h2
    | cons y ys =>
      simp only [List.zipWith_cons_cons, List.all_cons, id, Bool.and_eq_true] at h
      cases k with
      | zero =>
        simp only [List.getElem?_cons_zero, Option.some.injEq] at h1 h2
        subst h1
        subst h2
        exact h.1
      | succ n =>
        simp only [List.getElem?_cons_succ] at h1 h2
        exact ih ys h.2 n h1 h2

/-- The column sweep succeeds on every row that parses. -/
theorem sweepRow_total_of_rowParses (L : Lib) (header row : List String)
    (hp : rowParses L header row = true) :
    ∃ r, sweepRow L header (indicesOf header) row 0 record.zero = .ok r := by
  unfold rowParses at hp
  simp only [Bool.and_eq_true, decide_eq_true_eq] at hp
  refine sweepRow_total L header (indicesOf header) row 0 record.zero ?_
  intro k value r1 _ hv
  simp only [Nat.sub_zero] at hv
  have hlt : k < row.length := by
    by_contra hge
    rw [List.getElem?_eq_none (by omega)] at hv
    cases hv
  have hk : header[k]? = some header[k] := List.getElem?_eq_getElem (by omega)
  exact cellStep_total L header k _ value r1 hk
    (zipWith_all_getElem (cellParses L) header row hp.2 k _ value hk hv)

theorem forall₂_imp_mem {α β : Type} {R S : α → β → Prop} {l1 : List α} {l2 : List β}
    (h : List.Forall₂ R l1 l2) (himp : ∀ a b, a ∈ l1 → R a b → S a b) :
    List.Forall₂ S l1 l2 := by
  induction h with
  | nil => exact List.Forall₂.nil
  | cons hab _ ih =>
    exact List.Forall₂.cons (himp _ _ (List.mem_cons_self _ _) hab)
      (ih (fun a b ha => himp a b (List.mem_cons_of_mem _ ha)))

theorem forall₂_of_forall_exists {α β : Type} (R : α → β → Prop) (l : List α)
    (h : ∀ a ∈ l, ∃ b, R a b) : ∃ bs, List.Forall₂ R l bs := by
  induction l with
  | nil => exact ⟨[], List.Forall₂.nil⟩
  | cons a rest ih =>
    obtain ⟨b, hb⟩ := h a (List.mem_cons_self _ _)
    obtain ⟨bs, hbs⟩ := ih (fun x hx => h x (List.mem_cons_of_mem _ hx))
    exact ⟨b :: bs, List.Forall₂.cons hb hbs⟩

theorem rowTime_isSome_of_rowParses (L : Lib) (header row : List String)
    (hh : header.head? = some "utc_timestamp") (hp : rowParses L header row = true) :
    (rowTime L row).isSome = true := by
  unfold rowParses at hp
  simp only [Bool.and_eq_true, decide_eq_true_eq] at hp
  cases header with
  | nil => simp at hh
  | cons h0 tl =>
    simp only [List.head?_cons, Option.some.injEq] at hh
    subst hh
    cases row with
    | nil => simp at hp
    | cons v vs =>
      have := zipWith_all_getElem (cellParses L) _ _ hp.2 0 "utc_timestamp" v
        (List.getElem?_cons_zero) (List.getElem?_cons_zero)
      simpa [cellParses, rowTime] using this

theorem keptRows_length (L : Lib) (body : List (List String)) :
    (keptRows L body).length =
      ((body.filterMap (rowTime L)).filter (fun t => t.After filterCutoff)).length := by
  induction body with
  | nil => rfl
  | cons row rest ih =>
    unfold keptRows at ih ⊢
    cases ht : rowTime L row with
    | none => simp [List.filter_cons, List.filterMap_cons, survives, ht, ih]
    | some d =>
      by_cases ha : d.After filterCutoff = true
      · simp [List.filter_cons, List.filterMap_cons, survives, ht, ha, ih]
      · simp [List.filter_cons, List.filterMap_cons, survives, ht, ha, ih]

theorem keptRows_times (L : Lib) (body : List (List String)) (rs : List record)
    (h : List.Forall₂ (fun row r => rowTime L row = some r.DateTimeUTC) (keptRows L body) rs) :
    rs.map (fun r => r.DateTimeUTC) =
      (body.filterMap (rowTime L)).filter (fun t => t.After filterCutoff) := by
  induction body generalizing rs with
  | nil =>
    cases h
    rfl
  | cons row rest ih =>
    unfold keptRows at ih h
    cases ht : rowTime L row with
    | none =>
      simp only [List.filter_cons, survives, ht, Bool.false_eq_true, if_false] at h
      simp only [List.filterMap_cons, ht]
      exact ih rs h
    | some d =>
      by_cases ha : d.After filterCutoff = true
      · simp only [List.filter_cons, survives, ht, ha, if_true] at h
        cases h with
        | cons h1 h2 =>
          rename_i r rs0
          rw [ht] at h1
          simp only [List.filterMap_cons, ht, List.filter_cons, ha, if_true, List.map_cons]
          rw [ih rs0 h2, Option.some.inj h1]
      · simp only [List.filter_cons, survives, ht, ha, if_false] at h
        simp only [List.filterMap_cons, ht, List.filter_cons, ha, if_false]
        exact ih rs h

theorem cutoffs_lt : filterCutoff < recordCutoff := by decide

theorem sprintfJoin_eq (c m : String) : sprintfJoin c m = c ++ ("_" ++ m) := by
  simp [sprintfJoin, String.append_assoc]

theorem timestamp_only_first (header : List String)
    (hu : "utc_timestamp" ∉ header.tail) (k : Nat) (hk : 0 < k) :
    ¬ header[k]? = some "utc_timestamp" := by
  intro h
  cases header with
  | nil => simp at h
  | cons h0 tl =>
    obtain ⟨n, rfl⟩ : ∃ n, k = n + 1 := ⟨k - 1, by omega⟩
    simp only [List.getElem?_cons_succ] at h
    exact hu (List.getElem?_mem h)

/-- `parseDataset` returns records, without error or panic, on every dataset
whose first column is the timestamp column and whose rows all parse. -/
theorem parseDataset_total (L : Lib) (header : List String) (body : List (List String))
    (hh : header.head? = some "utc_timestamp")
    (hp : ∀ row ∈ body, rowParses L header row = true) :
    ∃ rs, parseDataset L ⟨some header, some body⟩ = .ok rs := by
  obtain ⟨rs, hrs⟩ := forall₂_of_forall_exists
    (fun row r => sweepRow L header (indicesOf header) row 0 record.zero = .ok r)
    (keptRows L body)
    (fun row hrow => sweepRow_total_of_rowParses L header row
      (hp row (List.mem_of_mem_filter hrow)))
  exact ⟨rs, (parseDataset_ok_iff L header body rs).mpr
    ⟨fun row hrow => rowTime_isSome_of_rowParses L header row hh (hp row hrow), hrs⟩⟩

/-! ## Claims on the record extraction -/

/-- C7: for every header and every surviving row, if `j` is the highest
position of the row that holds a non-timestamp column of the column index,
the CountryCode of the row's record is the country the index maps `j` to
(the last write of the left-to-right sweep wins). -/
theorem C7_country_last_write (L : Lib) (header : List String) (body : List (List String))
    (rs : List record) (hok : parseDataset L ⟨some header, some body⟩ = .ok rs) :
    List.Forall₂ (fun row r =>
      ∀ j, j < row.length → writesCountry header (indicesOf header) j →
        (∀ k, j < k → k < row.length → ¬ writesCountry header (indicesOf header) k) →
        indicesOf header j = some r.CountryCode) (keptRows L body) rs := by
  refine List.Forall₂.imp ?_ ((parseDataset_ok_iff L header body rs).mp hok).2
  intro row r hs j hj hw hmax
  obtain ⟨value, hv⟩ : ∃ value, row[j]? = some value := ⟨row[j], List.getElem?_eq_getElem hj⟩
  exact (sweepRow_lastWrite L header (indicesOf header) (fun r => r.CountryCode)
    (writesCountry header (indicesOf header)) (fun k _ v => indicesOf header k = some v)
    (cellStep_country L header (indicesOf header)) row record.zero r hs).1 j value hv hw hmax

/-- Witness for C7: the German column is followed by an Austrian one. -/
theorem C7_country_last_write_witness :
    List.Forall₂ (fun (row : List String) (r : record) =>
      ∀ j, j < row.length → writesCountry mixedHeader (indicesOf mixedHeader) j →
        (∀ k, j < k → k < row.length → ¬ writesCountry mixedHeader (indicesOf mixedHeader) k) →
        indicesOf mixedHeader j = some r.CountryCode)
      (keptRows refLib [sampleRow]) [⟨sampleTime, "AT", f1000, f1100⟩] :=
  C7_country_last_write refLib mixedHeader [sampleRow] [⟨sampleTime, "AT", f1000, f1100⟩]
    (by decide)

/-- C8 (counterexample): with a German load_actual column followed by an
Austrian load_forecast column the record reports "AT" and yet its LoadActual
is the value read from the German column, not 0.0. -/
theorem C8_counterexample :
    parseDataset refLib ⟨some mixedHeader, some [sampleRow]⟩ =
      .ok [⟨sampleTime, "AT", f1000, f1100⟩] ∧
    mixedHeader[1]? = some "DE_load_actual_entsoe_transparency" ∧
    sampleRow[1]? = some "1000.0" ∧
    parseDecimalFloat "1000.0" = some f1000 ∧
    "AT_load_actual_entsoe_transparency" ∉ mixedHeader ∧
    f1000 ≠ Float64.zero := by
  decide

/-- C8 (amended): in the record of every surviving row, LoadActual is the
parsed cell of the highest-position load_actual column of any configured
country (0.0 when the row has none), and LoadForecast likewise for the
load_forecast columns; the fields are assigned independently of the country
reported in CountryCode. -/
theorem C8_load_fields_last_write (L : Lib) (header : List String)
    (body : List (List String)) (rs : List record)
    (hok : parseDataset L ⟨some header, some body⟩ = .ok rs) :
    List.Forall₂ (fun row r =>
      (∀ j value, row[j]? = some value →
        loadColumn header "load_actual_entsoe_transparency" j →
        (∀ k, j < k → k < row.length →
          ¬ loadColumn header "load_actual_entsoe_transparency" k) →
        mustParseFloat L value = .ok r.LoadActual) ∧
      ((∀ k, k < row.length → ¬ loadColumn header "load_actual_entsoe_transparency" k) →
        r.LoadActual = Float64.zero) ∧
      (∀ j value, row[j]? = some value →
        loadColumn header "load_forecast_entsoe_transparency" j →
        (∀ k, j < k → k < row.length →
          ¬ loadColumn header "load_forecast_entsoe_transparency" k) →
        mustParseFloat L value = .ok r.LoadForecast) ∧
      ((∀ k, k < row.length → ¬ loadColumn header "load_forecast_entsoe_transparency" k) →
        r.LoadForecast = Float64.zero)) (keptRows L body) rs := by
  refine List.Forall₂.imp ?_ ((parseDataset_ok_iff L header body rs).mp hok).2
  intro row r hs
  have hA := sweepRow_lastWrite L header (indicesOf header) (fun r => r.LoadActual)
    (loadColumn header "load_actual_entsoe_transparency")
    (fun _ value v => mustParseFloat L value = .ok v)
    (fun k value r1 r2 h => by
      rw [← writesMetric_iff header "load_actual_entsoe_transparency" (by decide) k]
      exact cellStep_actual L header (indicesOf header) k value r1 r2 h)
    row record.zero r hs
  have hF := sweepRow_lastWrite L header (indicesOf header) (fun r => r.LoadForecast)
    (loadColumn header "load_forecast_entsoe_transparency")
    (fun _ value v => mustParseFloat L value = .ok v)
    (fun k value r1 r2 h => by
      rw [← writesMetric_iff header "load_forecast_entsoe_transparency" (by decide) k]
      exact cellStep_forecast L header (indicesOf header) k value r1 r2 h)
    row record.zero r hs
  exact ⟨hA.1, hA.2, hF.1, hF.2⟩

/-- Witness for C8: the dataset of the counterexample. -/
theorem C8_load_fields_last_write_witness :
    List.Forall₂ (fun (row : List String) (r : record) =>
      (∀ j value, row[j]? = some value →
        loadColumn mixedHeader "load_actual_entsoe_transparency" j →
        (∀ k, j < k → k < row.length →
          ¬ loadColumn mixedHeader "load_actual_entsoe_transparency" k) →
        mustParseFloat refLib value = .ok r.LoadActual) ∧
      ((∀ k, k < row.length → ¬ loadColumn mixedHeader "load_actual_entsoe_transparency" k) →
        r.LoadActual = Float64.zero) ∧
      (∀ j value, row[j]? = some value →
        loadColumn mixedHeader "load_forecast_entsoe_transparency" j →
        (∀ k, j < k → k < row.length →
          ¬ loadColumn mixedHeader "load_forecast_entsoe_transparency" k) →
        mustParseFloat refLib value = .ok r.LoadForecast) ∧
      ((∀ k, k < row.length → ¬ loadColumn mixedHeader "load_forecast_entsoe_transparency" k) →
        r.LoadForecast = Float64.zero))
      (keptRows refLib [sampleRow]) [⟨sampleTime, "AT", f1000, f1100⟩] :=
  C8_load_fields_last_write refLib mixedHeader [sampleRow] [⟨sampleTime, "AT", f1000, f1100⟩]
    (by decide)

/-- C9 (counterexample): a dataset with only the timestamp column yields a
record whose CountryCode is the empty string, which is no configured
country. -/
theorem C9_counterexample :
    parseDataset refLib ⟨some ["utc_timestamp"], some [["2019-05-01T12:00:00Z"]]⟩ =
      .ok [⟨sampleTime, "", Float64.zero, Float64.zero⟩] ∧
    "" ∉ countries := by
  decide

/-- C9 (amended): every record returned by `parseDataset` has a CountryCode
that is the empty string or one of the configured countries, and it is a
configured country exactly when the row holds a non-timestamp column of the
column index. -/
theorem C9_country_code_range (L : Lib) (header : List String) (body : List (List String))
    (rs : List record) (hok : parseDataset L ⟨some header, some body⟩ = .ok rs) :
    (∀ r ∈ rs, r.CountryCode = "" ∨ r.CountryCode ∈ countries) ∧
    List.Forall₂ (fun row r =>
      (r.CountryCode ∈ countries ↔
        ∃ k, k < row.length ∧ writesCountry header (indicesOf header) k) ∧
      (r.CountryCode = "" ↔
        ∀ k, k < row.length → ¬ writesCountry header (indicesOf header) k))
      (keptRows L body) rs := by
  have hne : "" ∉ countries := by decide
  have base : List.Forall₂ (fun row r =>
      (r.CountryCode = "" ∧ ∀ i, i < row.length → ¬ writesCountry header (indicesOf header) i) ∨
      (r.CountryCode ∈ countries ∧
        ∃ i, i < row.length ∧ writesCountry header (indicesOf header) i))
      (keptRows L body) rs := by
    refine List.Forall₂.imp ?_ ((parseDataset_ok_iff L header body rs).mp hok).2
    intro row r hs
    have inv := sweepRow_invariant L header (indicesOf header)
      (fun k r =>
        (r.CountryCode = "" ∧ ∀ i, i < k → ¬ writesCountry header (indicesOf header) i) ∨
        (r.CountryCode ∈ countries ∧ ∃ i, i < k ∧ writesCountry header (indicesOf header) i))
      row 0 record.zero r (Or.inl ⟨rfl, fun i hi => absurd hi (Nat.not_lt_zero _)⟩) ?_ hs
    · simpa using inv
    · intro k value r1 r2 _ _ hP hc
      obtain ⟨h1, h2⟩ := cellStep_country L header (indicesOf header) k value r1 r2 hc
      by_cases hw : writesCountry header (indicesOf header) k
      · right
        exact ⟨indicesOf_mem header k _ (h1 hw), k, Nat.lt_succ_self k, hw⟩
      · rw [h2 hw]
        rcases hP with ⟨he, hnone⟩ | ⟨hm, i, hi, hwi⟩
        · left
          refine ⟨he, fun i hi => ?_⟩
          by_cases hik : i = k
          · exact hik ▸ hw
          · exact hnone i (by omega)
        · right
          exact ⟨hm, i, by omega, hwi⟩
  constructor
  · intro r hr
    obtain ⟨row, _, hrow⟩ := forall₂_mem_right base r hr
    rcases hrow with ⟨he, _⟩ | ⟨hm, _⟩
    · exact Or.inl he
    · exact Or.inr hm
  · refine List.Forall₂.imp ?_ base
    intro row r hrow
    rcases hrow with ⟨he, hnone⟩ | ⟨hm, i, hi, hwi⟩
    · refine ⟨⟨fun hm => absurd (he ▸ hm) hne, fun ⟨i, hi, hwi⟩ => absurd hwi (hnone i hi)⟩,
        ⟨fun _ => hnone, fun _ => he⟩⟩
    · refine ⟨⟨fun _ => ⟨i, hi, hwi⟩, fun _ => hm⟩,
        ⟨fun he => absurd (he ▸ hm) hne, fun hnone => absurd hwi (hnone i hi)⟩⟩

/-- Witness for C9: a row with indexed columns of two countries. -/
theorem C9_country_code_range_witness :
    (∀ r ∈ [(⟨sampleTime, "AT", f1000, f1100⟩ : record)],
      r.CountryCode = "" ∨ r.CountryCode ∈ countries) ∧
    List.Forall₂ (fun (row : List String) (r : record) =>
      (r.CountryCode ∈ countries ↔
        ∃ k, k < row.length ∧ writesCountry mixedHeader (indicesOf mixedHeader) k) ∧
      (r.CountryCode = "" ↔
        ∀ k, k < row.length → ¬ writesCountry mixedHeader (indicesOf mixedHeader) k))
      (keptRows refLib [sampleRow]) [⟨sampleTime, "AT", f1000, f1100⟩] :=
  C9_country_code_range refLib mixedHeader [sampleRow] [⟨sampleTime, "AT", f1000, f1100⟩]
    (by decide)

/-- C10 (counterexample): position 0 of the header holds "utc_timestamp" and
is a key of the column index. -/
theorem C10_counterexample :
    ["utc_timestamp"][0]? = some "utc_timestamp" ∧
    buildIndices countries columns (rangeFrom ["utc_timestamp"] 0) 0 = some "DE" := by
  decide

/-- C10 (amended): for every header, every position of a "utc_timestamp"
column is a key of the column index `parseDataset` builds, mapped to the
first configured country "DE"; the column sweep never reads the index at
such a position, so its result is the same for any two indices that agree
on the other positions. -/
theorem C10_timestamp_position_indexed (L : Lib) (header : List String) (j : Nat)
    (hj : header[j]? = some "utc_timestamp") :
    buildIndices countries columns (rangeFrom header 0) j = some "DE" ∧
    ∀ (idx1 idx2 : Indices) (row : List String) (k : Nat) (r : record),
      (∀ i, header[i]? ≠ some "utc_timestamp" → idx1 i = idx2 i) →
      sweepRow L header idx1 row k r = sweepRow L header idx2 row k r :=
  ⟨buildIndices_timestamp header j hj,
    fun idx1 idx2 row k r hagree => sweepRow_indices_congr L header idx1 idx2 hagree row k r⟩

/-- Witness for C10: the first position of the German sample header. -/
theorem C10_timestamp_position_indexed_witness :
    buildIndices countries columns (rangeFrom germanHeader 0) 0 = some "DE" :=
  (C10_timestamp_position_indexed refLib germanHeader 0 (by decide)).1

/-! ## Claims on the filter -/

/-- C1 (counterexample): the row at exactly 2018-01-01T00:00:00Z is kept;
`parseDataset` returns a record for it, whose timestamp is not strictly after
2018-01-01T00:00:00Z. -/
theorem C1_counterexample :
    germanHeader.head? = some "utc_timestamp" ∧
    parseRFC3339 "2018-01-01T00:00:00Z" = some recordCutoff ∧
    parseDataset refLib ⟨some germanHeader, some [["2018-01-01T00:00:00Z", "1000.0", "1100.0"]]⟩ =
      .ok [⟨recordCutoff, "DE", f1000, f1100⟩] ∧
    ¬ (recordCutoff < recordCutoff) := by
  decide

/-- C1 (amended): for every dataset whose first header column is
"utc_timestamp" and whose body rows all parse, `parseDataset` returns records,
one per kept row and in input order, where every row at or after
2018-01-01T00:00:00Z is kept (the boundary is inclusive, so the rows at
2018-01-01T00:00:00Z and at 2018-01-01T00:00:01Z both yield a record) and
every row at or before 2017-12-31T23:59:00Z is dropped; when no other column
is named "utc_timestamp", the record timestamps are the kept rows'
timestamps and all are strictly after 2017-12-31T23:59:00Z. -/
theorem C1_filter_boundary_inclusive (L : Lib) (header : List String)
    (body : List (List String)) (hh : header.head? = some "utc_timestamp")
    (hp : ∀ row ∈ body, rowParses L header row = true) :
    ∃ rs, parseDataset L ⟨some header, some body⟩ = .ok rs ∧
      ∃ keep : Time → Bool,
        (∀ t, recordCutoff ≤ t → keep t = true) ∧
        (∀ t, t ≤ filterCutoff → keep t = false) ∧
        rs.length = ((body.filterMap (rowTime L)).filter keep).length ∧
        ("utc_timestamp" ∉ header.tail →
          rs.map (fun r => r.DateTimeUTC) = (body.filterMap (rowTime L)).filter keep ∧
          ∀ r ∈ rs, filterCutoff < r.DateTimeUTC) := by
  have hall : ∀ row ∈ body, (rowTime L row).isSome = true :=
    fun row hrow => rowTime_isSome_of_rowParses L header row hh (hp row hrow)
  obtain ⟨rs, hrs⟩ := forall₂_of_forall_exists
    (fun row r => sweepRow L header (indicesOf header) row 0 record.zero = .ok r)
    (keptRows L body)
    (fun row hrow => sweepRow_total_of_rowParses L header row
      (hp row (List.mem_of_mem_filter hrow)))
  refine ⟨rs, (parseDataset_ok_iff L header body rs).mpr ⟨hall, hrs⟩,
    fun t => t.After filterCutoff, ?_, ?_, ?_, ?_⟩
  · intro t ht
    simp only [Time.After, decide_eq_true_eq]
    exact lt_of_lt_of_le cutoffs_lt ht
  · intro t ht
    simp only [Time.After, decide_eq_false_iff_not]
    exact not_lt.mpr ht
  · rw [← keptRows_length, hrs.length_eq]
  · intro hu
    have htimes : List.Forall₂ (fun row r => rowTime L row = some r.DateTimeUTC)
        (keptRows L body) rs := by
      refine forall₂_imp_mem hrs ?_
      intro row r hrow hs
      have hlw := sweepRow_lastWrite L header (indicesOf header) (fun r => r.DateTimeUTC)
        (fun k => header[k]? = some "utc_timestamp") (fun _ value v => L.parseTime value = some v)
        (cellStep_time L header (indicesOf header)) row record.zero r hs
      cases row with
      | nil =>
        have hsurv := (List.mem_filter.mp hrow).2
        simp [survives, rowTime] at hsurv
      | cons v vs =>
        have h0 : header[0]? = some "utc_timestamp" := by
          cases header with
          | nil => simp at hh
          | cons a tl => simpa using hh
        have := hlw.1 0 v (List.getElem?_cons_zero) h0
          (fun k hk _ => timestamp_only_first header hu k hk)
        simpa [rowTime] using this
    have hmap := keptRows_times L body rs htimes
    refine ⟨hmap, ?_⟩
    intro r hr
    have hmem : r.DateTimeUTC ∈ rs.map (fun r => r.DateTimeUTC) := List.mem_map_of_mem _ hr
    rw [hmap] at hmem
    have := (List.mem_filter.mp hmem).2
    simpa [Time.After] using this

/-- Witness for C1: rows at 2017-12-31T23:59:00Z, 2018-01-01T00:00:00Z and
2018-01-01T00:00:01Z under the German sample header. -/
theorem C1_filter_boundary_inclusive_witness :
    ∃ rs, parseDataset refLib ⟨some germanHeader,
        some [["2017-12-31T23:59:00Z", "1.0", "2.0"], ["2018-01-01T00:00:00Z", "", "2.5"],
          ["2018-01-01T00:00:01Z", "1000.0", "1100.0"]]⟩ = .ok rs ∧
      ∃ keep : Time → Bool,
        (∀ t, recordCutoff ≤ t → keep t = true) ∧
        (∀ t, t ≤ filterCutoff → keep t = false) ∧
        rs.length = (([["2017-12-31T23:59:00Z", "1.0", "2.0"], ["2018-01-01T00:00:00Z", "", "2.5"],
          ["2018-01-01T00:00:01Z", "1000.0", "1100.0"]].filterMap (rowTime refLib)).filter
            keep).length ∧
        ("utc_timestamp" ∉ germanHeader.tail →
          rs.map (fun r => r.DateTimeUTC) =
            ([["2017-12-31T23:59:00Z", "1.0", "2.0"], ["2018-01-01T00:00:00Z", "", "2.5"],
              ["2018-01-01T00:00:01Z", "1000.0", "1100.0"]].filterMap (rowTime refLib)).filter
                keep ∧
          ∀ r ∈ rs, filterCutoff < r.DateTimeUTC) :=
  C1_filter_boundary_inclusive refLib germanHeader
    [["2017-12-31T23:59:00Z", "1.0", "2.0"], ["2018-01-01T00:00:00Z", "", "2.5"],
      ["2018-01-01T00:00:01Z", "1000.0", "1100.0"]] (by decide) (by decide)

/-- C3: for every configured country `c`, the dataset with header
["utc_timestamp", c+"_load_actual_entsoe_transparency",
c+"_load_forecast_entsoe_transparency"] and the single body row [t, a, f],
where `t` parses to an instant `d` after the cutoff and `a`, `f` are numeric
cells parsing to `x`, `y`, makes `parseDataset` return, without error,
exactly one record, with DateTimeUTC `d`, CountryCode `c`, LoadActual `x`
and LoadForecast `y`. -/
theorem C3_single_row_record (L : Lib) (c t a f : String) (d : Time) (x y : Float64)
    (hc : c ∈ countries) (ht : L.parseTime t = some d) (hd : recordCutoff < d)
    (ha0 : a ≠ "") (ha : L.parseFloat a = some x)
    (hf0 : f ≠ "") (hf : L.parseFloat f = some y) :
    parseDataset L ⟨some ["utc_timestamp", c ++ "_load_actual_entsoe_transparency",
        c ++ "_load_forecast_entsoe_transparency"], some [[t, a, f]]⟩ =
      .ok [⟨d, c, x, y⟩] := by
  have e1 : c ++ "_load_actual_entsoe_transparency" =
      sprintfJoin c "load_actual_entsoe_transparency" := by
    rw [sprintfJoin_eq]
    rfl
  have e2 : c ++ "_load_forecast_entsoe_transparency" =
      sprintfJoin c "load_forecast_entsoe_transparency" := by
    rw [sprintfJoin_eq]
    rfl
  rw [e1, e2]
  have hx : mustParseFloat L a = .ok x := by simp [mustParseFloat, ha0, ha]
  have hy : mustParseFloat L f = .ok y := by simp [mustParseFloat, hf0, hf]
  have hafter : d.After filterCutoff = true := by
    simp only [Time.After, decide_eq_true_eq]
    exact lt_trans cutoffs_lt hd
  apply (parseDataset_ok_iff L _ _ _).mpr
  refine ⟨by simp [rowTime, ht], ?_⟩
  have hk : keptRows L [[t, a, f]] = [[t, a, f]] := by
    simp [keptRows, survives, rowTime, ht, hafter]
  rw [hk]
  refine List.Forall₂.cons ?_ List.Forall₂.nil
  rw [sweepRow_cons, cellStep_eval_timestamp L _ _ 0 t _ d (List.getElem?_cons_zero) ht]
  simp only []
  rw [sweepRow_cons, cellStep_eval_actual L _ 1 a c _ x hc (by simp) hx]
  simp only []
  rw [sweepRow_cons, cellStep_eval_forecast L _ 2 f c _ y hc (by simp) hy]
  simp only [sweepRow]

/-- Witness for C3: country DE and the row
["2019-05-01T12:00:00Z", "1000.0", "1100.0"]. -/
theorem C3_single_row_record_witness :
    parseDataset refLib ⟨some ["utc_timestamp", "DE" ++ "_load_actual_entsoe_transparency",
        "DE" ++ "_load_forecast_entsoe_transparency"],
      some [["2019-05-01T12:00:00Z", "1000.0", "1100.0"]]⟩ =
      .ok [⟨sampleTime, "DE", f1000, f1100⟩] :=
  C3_single_row_record refLib "DE" "2019-05-01T12:00:00Z" "1000.0" "1100.0" sampleTime
    f1000 f1100 (by decide) (by decide) (by decide) (by decide) (by decide) (by decide)
    (by decide)

/-- C6: if the timestamp cell (the first cell) of any body row, wherever it
stands in the body, is not a valid RFC 3339 timestamp, `parseDataset` returns
an error value and no records, so `main` has nothing to publish; the rows
are non-empty, as every CSV record is. -/
theorem C6_malformed_timestamp_aborts (L : Lib) (header : Option (List String))
    (body : List (List String)) (hne : ∀ row ∈ body, row ≠ [])
    (hbad : ∃ row ∈ body, ∃ cell, row[0]? = some cell ∧ L.parseTime cell = none) :
    (∃ e, parseDataset L ⟨header, some body⟩ = .error e ∧ e.isError = true) ∧
    (∀ hdr, header = some hdr →
      parseDataset L ⟨header, some body⟩ = .error .parsingDatetime) ∧
    mainRecords L ⟨header, some body⟩ = [] := by
  have hbad2 : ∃ row ∈ body, (rowTime L row).isSome = false := by
    obtain ⟨row, hmem, cell, hc, hp⟩ := hbad
    exact ⟨row, hmem, by simp [rowTime, hc, hp]⟩
  have hf := filterLoop_error L body [] hne hbad2
  cases header with
  | none =>
    refine ⟨⟨.readingHeader, rfl, rfl⟩, ?_, rfl⟩
    intro hdr h
    cases h
  | some hdr =>
    have : parseDataset L ⟨some hdr, some body⟩ = .error .parsingDatetime := by
      unfold parseDataset
      simp only [hf]
    refine ⟨⟨.parsingDatetime, this, rfl⟩, fun _ _ => this, ?_⟩
    unfold mainRecords
    rw [this]

/-- Witness for C6: the malformed cell stands in the second of three rows,
and the first and third rows are well-formed. -/
theorem C6_malformed_timestamp_aborts_witness :
    (∃ e, parseDataset refLib ⟨some germanHeader,
        some [sampleRow, ["not-a-date", "1.0", "2.0"], sampleRow]⟩ = .error e ∧
      e.isError = true) ∧
    (∀ hdr, some germanHeader = some hdr →
      parseDataset refLib ⟨some germanHeader,
        some [sampleRow, ["not-a-date", "1.0", "2.0"], sampleRow]⟩ =
        .error .parsingDatetime) ∧
    mainRecords refLib ⟨some germanHeader,
      some [sampleRow, ["not-a-date", "1.0", "2.0"], sampleRow]⟩ = [] :=
  C6_malformed_timestamp_aborts refLib (some germanHeader)
    [sampleRow, ["not-a-date", "1.0", "2.0"], sampleRow] (by decide)
    ⟨["not-a-date", "1.0", "2.0"], by decide, "not-a-date", by decide, by decide⟩

/-- C2 (evaluation at the failing input): a row at 2017-12-31T23:59:30Z
passes the first filter, is before the second cutoff, and still `parseDataset`
returns one record for it, without error. -/
theorem C2_row_before_cutoff_is_emitted :
    parseRFC3339 "2017-12-31T23:59:30Z" = some (timeDate 2017 12 31 23 59 30 0) ∧
    (timeDate 2017 12 31 23 59 30 0).After filterCutoff = true ∧
    (timeDate 2017 12 31 23 59 30 0).Before recordCutoff = true ∧
    parseDataset refLib ⟨some germanHeader, some [["2017-12-31T23:59:30Z", "1000.0", "1100.0"]]⟩ =
      .ok [⟨timeDate 2017 12 31 23 59 30 0, "DE", f1000, f1100⟩] := by
  decide

/-! ## Claims on the encoder -/

/-- C4: for every record and every encode-time instant,
`convertToLineProtocol` returns, with a nil error, the string made of
"sensor,country=", the country code, " load_actual=", the six-digit rendering
of LoadActual, ",load_forecast=", the six-digit rendering of LoadForecast, a
blank and the decimal Unix-nanosecond instant, where the rendering of a
finite value ends in a point followed by exactly six decimal digits; for
country DE, actual 1000.0 and forecast 1100.0 the string starts with
"sensor,country=DE load_actual=1000.000000,load_forecast=1100.000000 ". -/
theorem C4_line_protocol_format :
    (∀ (now : Int) (r : record), convertToLineProtocol now r =
      .ok ("sensor,country=" ++ r.CountryCode ++ " load_actual=" ++ formatFloat r.LoadActual ++
        ",load_forecast=" ++ formatFloat r.LoadForecast ++ " " ++ intDecimal now)) ∧
    (∀ x : Float64, x.expo ≠ 2047 → ∃ (s : String) (ds : List Char),
      formatFloat x = s ++ "." ++ String.mk ds ∧ ds.length = 6 ∧
        ∀ ch ∈ ds, ch.isDigit = true) ∧
    (formatFloat f1000 = "1000.000000" ∧ formatFloat f1100 = "1100.000000") ∧
    (∀ (now : Int) (t : Time), convertToLineProtocol now ⟨t, "DE", f1000, f1100⟩ =
      .ok ("sensor,country=DE load_actual=1000.000000,load_forecast=1100.000000 " ++
        intDecimal now)) := by
  have h1 : ∀ (now : Int) (r : record), convertToLineProtocol now r =
      .ok ("sensor,country=" ++ r.CountryCode ++ " load_actual=" ++ formatFloat r.LoadActual ++
        ",load_forecast=" ++ formatFloat r.LoadForecast ++ " " ++ intDecimal now) := by
    intro now r
    simp only [convertToLineProtocol, String.append_assoc, String.empty_append]
    rfl
  have h2 : formatFloat f1000 = "1000.000000" := by decide
  have h3 : formatFloat f1100 = "1100.000000" := by decide
  refine ⟨h1, ?_, ⟨h2, h3⟩, ?_⟩
  · intro x hx
    unfold formatFloat
    rw [if_neg hx]
    refine ⟨_, _, rfl, rfl, ?_⟩
    intro ch hch
    have hd : ∀ k, k < 10 → (Nat.digitChar k).isDigit = true := by decide
    simp only [sixDigits, List.mem_cons, List.mem_singleton, List.not_mem_nil, or_false] at hch
    rcases hch with rfl | rfl | rfl | rfl | rfl | rfl <;>
      exact hd _ (Nat.mod_lt _ (by decide))
  · intro now t
    rw [h1, h2, h3]
    rfl


/-- C17: the line-protocol message does not depend on the record's own
timestamp: for every encode-time instant, two records that agree on
CountryCode, LoadActual and LoadForecast (whatever their DateTimeUTC) give
the same string, and that string ends in a blank followed by the decimal
encode-time instant. -/
theorem C17_message_ignores_record_time (now : Int) (r1 r2 : record)
    (hc : r1.CountryCode = r2.CountryCode) (ha : r1.LoadActual = r2.LoadActual)
    (hf : r1.LoadForecast = r2.LoadForecast) :
    convertToLineProtocol now r1 = convertToLineProtocol now r2 ∧
    ∃ front, convertToLineProtocol now r1 = .ok (front ++ " " ++ intDecimal now) := by
  constructor
  · simp only [convertToLineProtocol, hc, ha, hf]
  · refine ⟨"sensor,country=" ++ r1.CountryCode ++ " load_actual=" ++
      formatFloat r1.LoadActual ++ ",load_forecast=" ++ formatFloat r1.LoadForecast, ?_⟩
    simp only [convertToLineProtocol, String.append_assoc, String.empty_append]
    rfl

/-- Witness for C17: two records a year apart, encoded at the same instant. -/
theorem C17_message_ignores_record_time_witness :
    sampleTime ≠ recordCutoff ∧
    (convertToLineProtocol 1700000000000000000 ⟨sampleTime, "DE", f1000, f1100⟩ =
      convertToLineProtocol 1700000000000000000 ⟨recordCutoff, "DE", f1000, f1100⟩ ∧
    ∃ front, convertToLineProtocol 1700000000000000000 ⟨sampleTime, "DE", f1000, f1100⟩ =
      .ok (front ++ " " ++ intDecimal 1700000000000000000)) :=
  ⟨by decide, C17_message_ignores_record_time 1700000000000000000
    ⟨sampleTime, "DE", f1000, f1100⟩ ⟨recordCutoff, "DE", f1000, f1100⟩ rfl rfl rfl⟩


/-! ## Further lemmas on the records of a successful run -/

/-- Last-write rule for one load field, in terms of the header names. -/
theorem sweepRow_load_lastWrite (L : Lib) (header row : List String) (r : record)
    (hs : sweepRow L header (indicesOf header) row 0 record.zero = .ok r) :
    ((∀ j value, row[j]? = some value →
        loadColumn header "load_actual_entsoe_transparency" j →
        (∀ k, j < k → k < row.length →
          ¬ loadColumn header "load_actual_entsoe_transparency" k) →
        mustParseFloat L value = .ok r.LoadActual) ∧
      ((∀ k, k < row.length → ¬ loadColumn header "load_actual_entsoe_transparency" k) →
        r.LoadActual = Float64.zero)) ∧
    ((∀ j value, row[j]? = some value →
        loadColumn header "load_forecast_entsoe_transparency" j →
        (∀ k, j < k → k < row.length →
          ¬ loadColumn header "load_forecast_entsoe_transparency" k) →
        mustParseFloat L value = .ok r.LoadForecast) ∧
      ((∀ k, k < row.length → ¬ loadColumn header "load_forecast_entsoe_transparency" k) →
        r.LoadForecast = Float64.zero)) := by
  constructor
  · exact sweepRow_lastWrite L header (indicesOf header) (fun r => r.LoadActual)
      (loadColumn header "load_actual_entsoe_transparency")
      (fun _ value v => mustParseFloat L value = .ok v)
      (fun k value r1 r2 h => by
        rw [← writesMetric_iff header "load_actual_entsoe_transparency" (by decide) k]
        exact cellStep_actual L header (indicesOf header) k value r1 r2 h)
      row record.zero r hs
  · exact sweepRow_lastWrite L header (indicesOf header) (fun r => r.LoadForecast)
      (loadColumn header "load_forecast_entsoe_transparency")
      (fun _ value v => mustParseFloat L value = .ok v)
      (fun k value r1 r2 h => by
        rw [← writesMetric_iff header "load_forecast_entsoe_transparency" (by decide) k]
        exact cellStep_forecast L header (indicesOf header) k value r1 r2 h)
      row record.zero r hs

/-- When the timestamp column is the first column and the only one of that
name, the record of a kept row carries the instant of the row's first cell. -/
theorem sweepRow_time_first (L : Lib) (header row : List String) (r : record)
    (hh : header.head? = some "utc_timestamp") (hu : "utc_timestamp" ∉ header.tail)
    (hrow : survives L row = true)
    (hs : sweepRow L header (indicesOf header) row 0 record.zero = .ok r) :
    rowTime L row = some r.DateTimeUTC := by
  have hlw := sweepRow_lastWrite L header (indicesOf header) (fun r => r.DateTimeUTC)
    (fun k => header[k]? = some "utc_timestamp") (fun _ value v => L.parseTime value = some v)
    (cellStep_time L header (indicesOf header)) row record.zero r hs
  cases row with
  | nil => simp [survives, rowTime] at hrow
  | cons v vs =>
    have h0 : header[0]? = some "utc_timestamp" := by
      cases header with
      | nil => simp at hh
      | cons a tl => simpa using hh
    have := hlw.1 0 v (List.getElem?_cons_zero) h0
      (fun k hk _ => timestamp_only_first header hu k hk)
    simpa [rowTime] using this

theorem survives_iff (L : Lib) (row : List String) :
    survives L row = true ↔ ∃ d, rowTime L row = some d ∧ filterCutoff < d := by
  unfold survives
  cases rowTime L row with
  | none => simp
  | some d => simp [Time.After]

/-! ## Claims on the number parser and the order of the records -/

/-- C14: `mustParseFloat` returns 0.0 for the empty string, without error, and
for every non-empty string on which the number parser succeeds it returns the
parsed number ("1234.5" gives 1234.5); consequently, in the records of a run,
a load field whose source cell (the cell of the highest-position column of
that metric) is empty is 0.0. -/
theorem C14_mustParseFloat_values (L : Lib) (s : String) (x : Float64)
    (hs : s ≠ "") (hx : L.parseFloat s = some x) :
    mustParseFloat L "" = .ok Float64.zero ∧
    mustParseFloat L s = .ok x ∧
    (mustParseFloat refLib "1234.5" = .ok f1234_5 ∧ f1234_5.toRat = 1234.5) ∧
    (∀ header body rs, parseDataset L ⟨some header, some body⟩ = .ok rs →
      List.Forall₂ (fun row r =>
        (∀ j, row[j]? = some "" →
          loadColumn header "load_actual_entsoe_transparency" j →
          (∀ k, j < k → k < row.length →
            ¬ loadColumn header "load_actual_entsoe_transparency" k) →
          r.LoadActual = Float64.zero) ∧
        (∀ j, row[j]? = some "" →
          loadColumn header "load_forecast_entsoe_transparency" j →
          (∀ k, j < k → k < row.length →
            ¬ loadColumn header "load_forecast_entsoe_transparency" k) →
          r.LoadForecast = Float64.zero)) (keptRows L body) rs) := by
  have h0 : mustParseFloat L "" = .ok Float64.zero := by simp [mustParseFloat]
  refine ⟨h0, by simp [mustParseFloat, hs, hx], ⟨by decide, by norm_num [Float64.toRat, f1234_5]⟩,
    ?_⟩
  intro header body rs hok
  refine List.Forall₂.imp ?_ ((parseDataset_ok_iff L header body rs).mp hok).2
  intro row r hsw
  obtain ⟨hA, hF⟩ := sweepRow_load_lastWrite L header row r hsw
  constructor
  · intro j hj hcol hmax
    have := hA.1 j "" hj hcol hmax
    rw [h0] at this
    exact (Except.ok.inj this).symm
  · intro j hj hcol hmax
    have := hF.1 j "" hj hcol hmax
    rw [h0] at this
    exact (Except.ok.inj this).symm

/-- Witness for C14: the cell "1234.5" under the reference parser. -/
theorem C14_mustParseFloat_values_witness :
    mustParseFloat refLib "" = .ok Float64.zero ∧
    mustParseFloat refLib "1234.5" = .ok f1234_5 :=
  ⟨(C14_mustParseFloat_values refLib "1234.5" f1234_5 (by decide) (by decide)).1,
    (C14_mustParseFloat_values refLib "1234.5" f1234_5 (by decide) (by decide)).2.1⟩

/-- C19: for every dataset that parses without error (in particular one
whose first header column is "utc_timestamp"), `parseDataset` returns a record
for a body row exactly when the row's timestamp is strictly after
2017-12-31T23:59:00Z: the records are, in order, those of the rows the first
filter keeps, and a row that the second check finds to be before
2018-01-01T00:00:00Z is kept all the same. -/
theorem C19_first_filter_decides (L : Lib) (header : List String) (body : List (List String))
    (rs : List record) (hok : parseDataset L ⟨some header, some body⟩ = .ok rs) :
    rs.length = (body.filter (survives L)).length ∧
    List.Forall₂ (fun row r => sweepRow L header (indicesOf header) row 0 record.zero = .ok r)
      (body.filter (survives L)) rs ∧
    (∀ row ∈ body, ∃ d, rowTime L row = some d) ∧
    (∀ row, survives L row = true ↔ ∃ d, rowTime L row = some d ∧ filterCutoff < d) ∧
    (∀ row d, rowTime L row = some d → filterCutoff < d → d.Before recordCutoff = true →
      survives L row = true) := by
  obtain ⟨hall, hrs⟩ := (parseDataset_ok_iff L header body rs).mp hok
  refine ⟨hrs.length_eq.symm, hrs, ?_, survives_iff L, ?_⟩
  · intro row hrow
    exact Option.isSome_iff_exists.mp (hall row hrow)
  · intro row d hd hlt _
    exact (survives_iff L row).mpr ⟨d, hd, hlt⟩

/-- Witness for C19: rows at 2017-12-31T23:59:00Z, 2017-12-31T23:59:30Z and
2018-01-01T00:00:01Z; the last two are kept. -/
theorem C19_first_filter_decides_witness :
    [(⟨timeDate 2017 12 31 23 59 30 0, "DE", f1000, f1100⟩ : record),
      ⟨timeDate 2018 1 1 0 0 1 0, "DE", f1000, f1100⟩].length =
      ([["2017-12-31T23:59:00Z", "1.0", "2.0"], ["2017-12-31T23:59:30Z", "1000.0", "1100.0"],
        ["2018-01-01T00:00:01Z", "1000.0", "1100.0"]].filter (survives refLib)).length :=
  (C19_first_filter_decides refLib germanHeader
    [["2017-12-31T23:59:00Z", "1.0", "2.0"], ["2017-12-31T23:59:30Z", "1000.0", "1100.0"],
      ["2018-01-01T00:00:01Z", "1000.0", "1100.0"]]
    [⟨timeDate 2017 12 31 23 59 30 0, "DE", f1000, f1100⟩,
      ⟨timeDate 2018 1 1 0 0 1 0, "DE", f1000, f1100⟩] (by decide)).1


/-- C11 (counterexample): the first header column is "utc_timestamp", the
dataset parses without error and its only row survives, but a second column
of the same name overwrites the record's timestamp, which then differs from
the timestamp of the surviving row. -/
theorem C11_counterexample :
    twoTimestampHeader.head? = some "utc_timestamp" ∧
    parseDataset refLib ⟨some twoTimestampHeader,
      some [["2019-05-01T12:00:00Z", "2020-01-01T00:00:00Z"]]⟩ =
      .ok [⟨timeDate 2020 1 1 0 0 0 0, "", Float64.zero, Float64.zero⟩] ∧
    survives refLib ["2019-05-01T12:00:00Z", "2020-01-01T00:00:00Z"] = true ∧
    rowTime refLib ["2019-05-01T12:00:00Z", "2020-01-01T00:00:00Z"] = some sampleTime ∧
    sampleTime ≠ timeDate 2020 1 1 0 0 0 0 := by
  decide

/-- C11 (amended): for every dataset whose first header column is
"utc_timestamp" and that parses without error, `parseDataset` emits exactly
one record per row that survives the filter, in input order and without
deduplication; when no other column is named "utc_timestamp", the list of
record timestamps equals the list of timestamps of the surviving rows, in the
same order. -/
theorem C11_one_record_per_kept_row (L : Lib) (header : List String)
    (body : List (List String)) (rs : List record)
    (hh : header.head? = some "utc_timestamp")
    (hok : parseDataset L ⟨some header, some body⟩ = .ok rs) :
    rs.length = (keptRows L body).length ∧
    List.Forall₂ (fun row r => sweepRow L header (indicesOf header) row 0 record.zero = .ok r)
      (keptRows L body) rs ∧
    ("utc_timestamp" ∉ header.tail →
      rs.map (fun r => r.DateTimeUTC) =
        (body.filterMap (rowTime L)).filter (fun t => t.After filterCutoff)) := by
  obtain ⟨_, hrs⟩ := (parseDataset_ok_iff L header body rs).mp hok
  refine ⟨hrs.length_eq.symm, hrs, ?_⟩
  intro hu
  refine keptRows_times L body rs (forall₂_imp_mem hrs ?_)
  intro row r hrow hs
  exact sweepRow_time_first L header row r hh hu (List.mem_filter.mp hrow).2 hs

/-- Witness for C11: three rows, two of them equal, under the German sample
header; the first is dropped and the equal ones both yield a record. -/
theorem C11_one_record_per_kept_row_witness :
    [(⟨sampleTime, "DE", f1000, f1100⟩ : record), ⟨sampleTime, "DE", f1000, f1100⟩].length =
      (keptRows refLib [["2017-06-01T00:00:00Z", "1.0", "2.0"], sampleRow, sampleRow]).length ∧
    List.Forall₂ (fun row r =>
        sweepRow refLib germanHeader (indicesOf germanHeader) row 0 record.zero = .ok r)
      (keptRows refLib [["2017-06-01T00:00:00Z", "1.0", "2.0"], sampleRow, sampleRow])
      [⟨sampleTime, "DE", f1000, f1100⟩, ⟨sampleTime, "DE", f1000, f1100⟩] ∧
    ("utc_timestamp" ∉ germanHeader.tail →
      [(⟨sampleTime, "DE", f1000, f1100⟩ : record), ⟨sampleTime, "DE", f1000, f1100⟩].map
          (fun r => r.DateTimeUTC) =
        ([["2017-06-01T00:00:00Z", "1.0", "2.0"], sampleRow, sampleRow].filterMap
          (rowTime refLib)).filter (fun t => t.After filterCutoff)) :=
  C11_one_record_per_kept_row refLib germanHeader
    [["2017-06-01T00:00:00Z", "1.0", "2.0"], sampleRow, sampleRow]
    [⟨sampleTime, "DE", f1000, f1100⟩, ⟨sampleTime, "DE", f1000, f1100⟩] (by decide) (by decide)

/-- C12 (counterexample): a header without any "utc_timestamp" column is
accepted: with an empty body `parseDataset` returns the empty list, and with
a body row it returns a record, in both cases without error. -/
theorem C12_counterexample :
    "utc_timestamp" ∉ ["cet_cest_timestamp", "DE_load_actual_entsoe_transparency"] ∧
    parseDataset refLib ⟨some ["cet_cest_timestamp", "DE_load_actual_entsoe_transparency"],
      some []⟩ = .ok [] ∧
    parseDataset refLib ⟨some ["cet_cest_timestamp", "DE_load_actual_entsoe_transparency"],
      some [["2019-05-01T12:00:00Z", "1000.0"]]⟩ =
      .ok [⟨zeroTime, "DE", f1000, Float64.zero⟩] := by
  decide

/-- C12 (amended): `parseDataset` fails with an error whenever the header row
cannot be read (the dataset has no header row), for every body; a header that
has no column named "utc_timestamp" is not rejected: with an empty body the
result is the empty record list, and every record returned for any body
carries the zero timestamp. -/
theorem C12_header_errors (L : Lib) (header : List String) (body : List (List String))
    (hno : "utc_timestamp" ∉ header) :
    (∀ remaining, parseDataset L ⟨none, remaining⟩ = .error .readingHeader) ∧
    parseDataset L ⟨some header, some []⟩ = .ok [] ∧
    (∀ rs, parseDataset L ⟨some header, some body⟩ = .ok rs →
      ∀ r ∈ rs, r.DateTimeUTC = zeroTime) := by
  refine ⟨fun _ => rfl, ?_, ?_⟩
  · simp [parseDataset, filterLoop, recordsLoop]
  · intro rs hok r hr
    obtain ⟨_, hrs⟩ := (parseDataset_ok_iff L header body rs).mp hok
    obtain ⟨row, _, hs⟩ := forall₂_mem_right hrs r hr
    have hlw := sweepRow_lastWrite L header (indicesOf header) (fun r => r.DateTimeUTC)
      (fun k => header[k]? = some "utc_timestamp") (fun _ value v => L.parseTime value = some v)
      (cellStep_time L header (indicesOf header)) row record.zero r hs
    exact hlw.2 (fun k _ hk => hno (List.getElem?_mem hk))

/-- Witness for C12: a header that starts with the local-time column. -/
theorem C12_header_errors_witness :
    (∀ remaining, parseDataset refLib ⟨none, remaining⟩ = .error .readingHeader) ∧
    parseDataset refLib ⟨some ["cet_cest_timestamp", "DE_load_actual_entsoe_transparency"],
      some []⟩ = .ok [] ∧
    (∀ rs, parseDataset refLib ⟨some ["cet_cest_timestamp",
        "DE_load_actual_entsoe_transparency"], some [["2019-05-01T12:00:00Z", "1000.0"]]⟩ =
      .ok rs → ∀ r ∈ rs, r.DateTimeUTC = zeroTime) :=
  C12_header_errors refLib ["cet_cest_timestamp", "DE_load_actual_entsoe_transparency"]
    [["2019-05-01T12:00:00Z", "1000.0"]] (by decide)


/-! ## Failures of the loops -/

theorem mustParseFloat_error (L : Lib) (value : String) (e : Failure)
    (h : mustParseFloat L value = .error e) : e = .parseFloatPanic := by
  unfold mustParseFloat at h
  split at h
  · cases h
  · split at h
    · cases h
    · cases h
      rfl

/-- The failures of the loop body, case by case. -/
theorem cellStep_error_cases (L : Lib) (header : List String) (indices : Indices)
    (k : Nat) (value : String) (r : record) (e : Failure)
    (h : cellStep L header indices k value r = .error e) :
    (e = .indexOutOfRange ∧ header[k]? = none) ∨
    (e = .parsingDatetime ∧ header[k]? = some "utc_timestamp" ∧ L.parseTime value = none) ∨
    (e = .sliceOutOfRange ∧ ∃ name c, header[k]? = some name ∧ name ≠ "utc_timestamp" ∧
      indices k = some c ∧ sliceFrom name (c.length + 1) = none) ∨
    (e = .parseFloatPanic ∧ mustParseFloat L value = .error .parseFloatPanic) := by
  unfold cellStep at h
  cases hh : header[k]? with
  | none =>
    simp only [hh] at h
    cases h
    exact Or.inl ⟨rfl, rfl⟩
  | some name =>
    simp only [hh] at h
    by_cases hn : name = "utc_timestamp"
    · simp only [hn, if_true] at h
      cases hp : L.parseTime value with
      | none =>
        simp only [hp] at h
        cases h
        exact Or.inr (Or.inl ⟨rfl, by rw [hn], rfl⟩)
      | some t => simp [hp] at h
    · simp only [hn, if_false] at h
      cases hi : indices k with
      | none => simp [hi] at h
      | some c =>
        simp only [hi] at h
        cases hs : sliceFrom name (c.length + 1) with
        | none =>
          simp only [hs] at h
          cases h
          exact Or.inr (Or.inr (Or.inl ⟨rfl, name, c, rfl, hn, rfl, hs⟩))
        | some column =>
          simp only [hs] at h
          by_cases h1 : column = "load_actual_entsoe_transparency"
          · simp only [h1, if_true] at h
            cases hm : mustParseFloat L value with
            | error e0 =>
              simp only [hm, Except.error.injEq] at h
              have he0 := mustParseFloat_error L value e0 hm
              subst he0
              exact Or.inr (Or.inr (Or.inr ⟨h.symm, rfl⟩))
            | ok f => simp [hm] at h
          · simp only [h1, if_false] at h
            by_cases h2 : column = "load_forecast_entsoe_transparency"
            · simp only [h2, if_true] at h
              cases hm : mustParseFloat L value with
              | error e0 =>
                simp only [hm, Except.error.injEq] at h
                have he0 := mustParseFloat_error L value e0 hm
                subst he0
                exact Or.inr (Or.inr (Or.inr ⟨h.symm, rfl⟩))
              | ok f => simp [hm] at h
            · simp [h2] at h

/-- A failing sweep fails in the loop body at some cell of the row. -/
theorem sweepRow_error (L : Lib) (header : List String) (indices : Indices)
    (row : List String) (j : Nat) (r : record) (e : Failure)
    (h : sweepRow L header indices row j r = .error e) :
    ∃ k value r1, j ≤ k ∧ row[k - j]? = some value ∧
      cellStep L header indices k value r1 = .error e := by
  induction row generalizing j r with
  | nil => simp [sweepRow] at h
  | cons value rest ih =>
    rw [sweepRow_cons] at h
    cases hc : cellStep L header indices j value r with
    | error e0 =>
      simp only [hc, Except.error.injEq] at h
      subst h
      exact ⟨j, value, r, le_refl _, by simp, hc⟩
    | ok r2 =>
      simp only [hc] at h
      obtain ⟨k, v, r1, hk, hv, hs⟩ := ih (j + 1) r2 h
      refine ⟨k, v, r1, by omega, ?_, hs⟩
      have e2 : k - j = (k - (j + 1)) + 1 := by omega
      rw [e2]
      simpa using hv

/-- A successful sweep went through the loop body at every cell of the
row. -/
theorem sweepRow_ok_steps (L : Lib) (header : List String) (indices : Indices)
    (row : List String) (j : Nat) (r out : record)
    (h : sweepRow L header indices row j r = .ok out) :
    ∀ k value, j ≤ k → row[k - j]? = some value →
      ∃ r1 r2, cellStep L header indices k value r1 = .ok r2 := by
  induction row generalizing j r with
  | nil => intro k value _ hv; simp at hv
  | cons v rest ih =>
    rw [sweepRow_cons] at h
    cases hc : cellStep L header indices j v r with
    | error e0 => simp [hc] at h
    | ok r2 =>
      simp only [hc] at h
      intro k value hk hv
      by_cases hjk : k = j
      · subst hjk
        simp only [Nat.sub_self, List.getElem?_cons_zero, Option.some.injEq] at hv
        subst hv
        exact ⟨r, r2, hc⟩
      · refine ih (j + 1) r2 h k value (by omega) ?_
        have e2 : k - j = (k - (j + 1)) + 1 := by omega
        rw [e2] at hv
        simpa using hv

theorem recordsLoop_error (L : Lib) (header : List String) (indices : Indices)
    (rows : List (List String)) (records : List record) (e : Failure)
    (h : recordsLoop L header indices rows records = .error e) :
    ∃ row ∈ rows, sweepRow L header indices row 0 record.zero = .error e := by
  induction rows generalizing records with
  | nil => simp [recordsLoop] at h
  | cons row rest ih =>
    unfold recordsLoop at h
    cases hs : sweepRow L header indices row 0 record.zero with
    | error e0 =>
      simp only [hs, Except.error.injEq] at h
      subst h
      exact ⟨row, List.mem_cons_self _ _, hs⟩
    | ok r =>
      simp only [hs] at h
      obtain ⟨row0, hmem, h0⟩ := ih _ h
      exact ⟨row0, List.mem_cons_of_mem _ hmem, h0⟩

theorem filterLoop_error_cases (L : Lib) (rows filtered : List (List String)) (e : Failure)
    (h : filterLoop L rows filtered = .error e) :
    (e = .indexOutOfRange ∧ [] ∈ rows) ∨ e = .parsingDatetime := by
  induction rows generalizing filtered with
  | nil => simp [filterLoop] at h
  | cons row rest ih =>
    cases row with
    | nil =>
      simp only [filterLoop, List.getElem?_nil, Except.error.injEq] at h
      exact Or.inl ⟨h.symm, List.mem_cons_self _ _⟩
    | cons cell cells =>
      unfold filterLoop at h
      simp only [List.getElem?_cons_zero] at h
      cases hp : L.parseTime cell with
      | none =>
        simp only [hp, Except.error.injEq] at h
        exact Or.inr h.symm
      | some d =>
        simp only [hp] at h
        have : ∃ acc, filterLoop L rest acc = .error e := by
          split at h
          · exact ⟨_, h⟩
          · exact ⟨_, h⟩
        obtain ⟨acc, hacc⟩ := this
        rcases ih acc hacc with ⟨he, hm⟩ | he
        · exact Or.inl ⟨he, List.mem_cons_of_mem _ hm⟩
        · exact Or.inr he

/-- Where a failure of `parseDataset` on a read dataset comes from. -/
theorem parseDataset_error_cases (L : Lib) (header : List String) (body : List (List String))
    (e : Failure) (h : parseDataset L ⟨some header, some body⟩ = .error e) :
    (e = .indexOutOfRange ∧ [] ∈ body) ∨ e = .parsingDatetime ∨
    ∃ row ∈ body, ∃ k value r1, row[k]? = some value ∧
      cellStep L header (indicesOf header) k value r1 = .error e := by
  unfold parseDataset at h
  simp only [] at h
  cases hf : filterLoop L body [] with
  | error e0 =>
    simp only [hf, Except.error.injEq] at h
    subst h
    rcases filterLoop_error_cases L body [] e0 hf with h1 | h1
    · exact Or.inl h1
    · exact Or.inr (Or.inl h1)
  | ok filtered =>
    simp only [hf] at h
    obtain ⟨_, hk⟩ := (filterLoop_ok_iff L body [] filtered).mp hf
    simp only [List.nil_append] at hk
    obtain ⟨row, hrow, hs⟩ := recordsLoop_error L header _ filtered [] e h
    obtain ⟨k, value, r1, _, hv, hc⟩ := sweepRow_error L header _ row 0 record.zero e hs
    rw [hk] at hrow
    exact Or.inr (Or.inr ⟨row, List.mem_of_mem_filter hrow, k, value, r1, by simpa using hv, hc⟩)


theorem forall₂_mem_left {α β : Type} {R : α → β → Prop} {l1 : List α} {l2 : List β}
    (h : List.Forall₂ R l1 l2) : ∀ a ∈ l1, ∃ b ∈ l2, R a b := by
  induction h with
  | nil => intro a ha; cases ha
  | cons hab _ ih =>
    intro a ha
    rcases List.mem_cons.mp ha with rfl | hmem
    · exact ⟨_, List.mem_cons_self _ _, hab⟩
    · obtain ⟨b, hb, hr⟩ := ih a hmem
      exact ⟨b, List.mem_cons_of_mem _ hb, hr⟩

/-- The loop body panics on a load column whose cell is not numeric. -/
theorem cellStep_load_panic (L : Lib) (header : List String) (k : Nat) (value c metric : String)
    (r : record) (hc : c ∈ countries)
    (hm : metric = "load_actual_entsoe_transparency" ∨
      metric = "load_forecast_entsoe_transparency")
    (hk : header[k]? = some (sprintfJoin c metric))
    (hv : mustParseFloat L value = .error .parseFloatPanic) :
    cellStep L header (indicesOf header) k value r = .error .parseFloatPanic := by
  have hcol : metric ∈ columns := by
    rcases hm with rfl | rfl <;> decide
  have hne : ("load_forecast_entsoe_transparency" : String) ≠
      "load_actual_entsoe_transparency" := by decide
  unfold cellStep
  simp only [hk, join_ne_timestamp c _ (countries_length c hc), if_false,
    indicesOf_join header k c _ hc hcol hk, sliceFrom_join]
  rcases hm with rfl | rfl
  · simp only [if_true, hv]
  · simp only [hne, if_false, if_true, hv]

theorem mustParseFloat_panic (L : Lib) (value : String) (hne : value ≠ "")
    (hbad : L.parseFloat value = none) :
    mustParseFloat L value = .error .parseFloatPanic := by
  simp [mustParseFloat, hne, hbad]

/-- The sweep fails at the first cell on which the loop body fails. -/
theorem sweepRow_first_error (L : Lib) (header : List String) (indices : Indices)
    (row : List String) (j0 j : Nat) (value : String) (r : record) (e : Failure)
    (hj : j0 ≤ j) (hv : row[j - j0]? = some value)
    (hbefore : ∀ k v r1, j0 ≤ k → k < j → row[k - j0]? = some v →
      ∃ r2, cellStep L header indices k v r1 = .ok r2)
    (hfail : ∀ r1, cellStep L header indices j value r1 = .error e) :
    sweepRow L header indices row j0 r = .error e := by
  induction row generalizing j0 r with
  | nil => simp at hv
  | cons v rest ih =>
    rw [sweepRow_cons]
    by_cases hjj : j = j0
    · subst hjj
      simp only [Nat.sub_self, List.getElem?_cons_zero, Option.some.injEq] at hv
      subst hv
      rw [hfail r]
    · obtain ⟨r2, h2⟩ := hbefore j0 v r (le_refl _) (by omega) (by simp)
      rw [h2]
      refine ih (j0 + 1) r2 (by omega) ?_ ?_
      · have e2 : j - j0 = (j - (j0 + 1)) + 1 := by omega
        rw [e2] at hv
        simpa using hv
      · intro k v0 r1 hk hkj hv0
        refine hbefore k v0 r1 (by omega) hkj ?_
        have e2 : k - j0 = (k - (j0 + 1)) + 1 := by omega
        rw [e2]
        simpa using hv0

/-- The record loop fails at the first row whose sweep fails. -/
theorem recordsLoop_first_error (L : Lib) (header : List String) (indices : Indices)
    (front : List (List String)) (row : List String) (back : List (List String))
    (records : List record) (e : Failure)
    (hfront : ∀ r ∈ front, ∃ out, sweepRow L header indices r 0 record.zero = .ok out)
    (hrow : sweepRow L header indices row 0 record.zero = .error e) :
    recordsLoop L header indices (front ++ row :: back) records = .error e := by
  induction front generalizing records with
  | nil =>
    simp only [List.nil_append, recordsLoop, hrow]
  | cons r0 rest ih =>
    obtain ⟨out, hout⟩ := hfront r0 (List.mem_cons_self _ _)
    simp only [List.cons_append, recordsLoop, hout]
    exact ih _ (fun r hr => hfront r (List.mem_cons_of_mem _ hr))

/-! ## Claims on failures -/

/-- C20: under the RawTable invariant (the header is non-empty and every
body row has as many cells as the header) no index or slice expression of
`parseDataset` is out of range: the only failures are the datetime error and
the number-parser panic; in particular, at every position `j` of the column
index whose header name is not "utc_timestamp", the name is at least as long
as the country code plus one, so the strip `header[j][len(country)+1:]` is
defined. -/
theorem C20_no_index_or_slice_failure (L : Lib) (header : List String)
    (body : List (List String)) (hne : header ≠ [])
    (hlen : ∀ row ∈ body, row.length = header.length) :
    (∀ e, parseDataset L ⟨some header, some body⟩ = .error e →
      e = .parsingDatetime ∨ e = .parseFloatPanic) ∧
    (∀ j name c, header[j]? = some name → name ≠ "utc_timestamp" →
      buildIndices countries columns (rangeFrom header 0) j = some c →
      c.length + 1 ≤ name.length ∧ ∃ column, sliceFrom name (c.length + 1) = some column) := by
  have hslice : ∀ j name c, header[j]? = some name → name ≠ "utc_timestamp" →
      indicesOf header j = some c →
      c.length + 1 ≤ name.length ∧ ∃ column, sliceFrom name (c.length + 1) = some column := by
    intro j name c hj hn hi
    obtain ⟨_, m, _, hp⟩ := (indicesOf_iff header j name hj hn c).mp hi
    obtain ⟨column, hs, _⟩ := slice_of_hasPrefix hp
    refine ⟨?_, column, hs⟩
    unfold sliceFrom at hs
    by_contra hlt
    rw [if_neg (by
      have : name.length = name.data.length := rfl
      omega)] at hs
    cases hs
  refine ⟨?_, hslice⟩
  intro e he
  rcases parseDataset_error_cases L header body e he with ⟨_, hmem⟩ | h1 | h2
  · have := hlen [] hmem
    simp only [List.length_nil] at this
    exact absurd (List.length_eq_zero.mp this.symm) hne
  · exact Or.inl h1
  · obtain ⟨row, hrow, k, value, r1, hv, hc⟩ := h2
    have hk : k < header.length := by
      rw [← hlen row hrow]
      by_contra hge
      rw [List.getElem?_eq_none (by omega)] at hv
      cases hv
    rcases cellStep_error_cases L header _ k value r1 e hc with
      ⟨_, h0⟩ | ⟨h0, _⟩ | ⟨_, name, c, hname, hn, hi, hs⟩ | ⟨h0, _⟩
    · rw [List.getElem?_eq_getElem hk] at h0
      cases h0
    · exact Or.inl h0
    · obtain ⟨_, column, hcol⟩ := hslice k name c hname hn hi
      rw [hs] at hcol
      cases hcol
    · exact Or.inr h0

/-- Witness for C20: the German sample header and one row of three cells. -/
theorem C20_no_index_or_slice_failure_witness :
    (∀ e, parseDataset refLib ⟨some germanHeader, some [sampleRow]⟩ = .error e →
      e = .parsingDatetime ∨ e = .parseFloatPanic) ∧
    (∀ j name c, germanHeader[j]? = some name → name ≠ "utc_timestamp" →
      buildIndices countries columns (rangeFrom germanHeader 0) j = some c →
      c.length + 1 ≤ name.length ∧ ∃ column, sliceFrom name (c.length + 1) = some column) :=
  C20_no_index_or_slice_failure refLib germanHeader [sampleRow] (by decide) (by decide)

/-- C13: in a surviving row, a non-empty cell that fails numeric parsing in a
load_actual_entsoe_transparency or load_forecast_entsoe_transparency column
of a configured country makes `mustParseFloat` panic; `parseDataset` then
returns no record list at all (the row is not skipped), and when nothing
fails before that cell the run ends in that panic. -/
theorem C13_bad_number_aborts (L : Lib) (header : List String)
    (front : List (List String)) (row : List String) (back : List (List String))
    (j : Nat) (value c metric : String)
    (hsurv : survives L row = true) (hj : row[j]? = some value)
    (hne : value ≠ "") (hbad : L.parseFloat value = none) (hc : c ∈ countries)
    (hm : metric = "load_actual_entsoe_transparency" ∨
      metric = "load_forecast_entsoe_transparency")
    (hcol : header[j]? = some (sprintfJoin c metric)) :
    mustParseFloat L value = .error .parseFloatPanic ∧
    (∀ rs, parseDataset L ⟨some header, some (front ++ row :: back)⟩ ≠ .ok rs) ∧
    ((∀ r ∈ front, (rowTime L r).isSome = true ∧ rowParses L header r = true) →
      (∀ r ∈ back, (rowTime L r).isSome = true) →
      (∀ k name v, k < j → header[k]? = some name → row[k]? = some v →
        cellParses L name v = true) →
      parseDataset L ⟨some header, some (front ++ row :: back)⟩ = .error .parseFloatPanic) := by
  have hpanic := mustParseFloat_panic L value hne hbad
  have hstep : ∀ r1, cellStep L header (indicesOf header) j value r1 =
      .error .parseFloatPanic :=
    fun r1 => cellStep_load_panic L header j value c metric r1 hc hm hcol hpanic
  refine ⟨hpanic, ?_, ?_⟩
  · intro rs hok
    obtain ⟨_, hrs⟩ := (parseDataset_ok_iff L header _ rs).mp hok
    have hmem : row ∈ keptRows L (front ++ row :: back) :=
      List.mem_filter.mpr ⟨by simp, hsurv⟩
    obtain ⟨r, _, hs⟩ := forall₂_mem_left hrs row hmem
    obtain ⟨r1, r2, h12⟩ := sweepRow_ok_steps L header _ row 0 record.zero r hs j value
      (Nat.zero_le _) (by simpa using hj)
    rw [hstep r1] at h12
    cases h12
  · intro hfront hback hcells
    have hall : ∀ r ∈ front ++ row :: back, (rowTime L r).isSome = true := by
      intro r hr
      rcases List.mem_append.mp hr with h1 | h1
      · exact (hfront r h1).1
      · rcases List.mem_cons.mp h1 with rfl | h2
        · obtain ⟨d, hd, _⟩ := (survives_iff L r).mp hsurv
          simp [hd]
        · exact hback r h2
    have hfilter := (filterLoop_ok_iff L (front ++ row :: back) []
      (keptRows L (front ++ row :: back))).mpr ⟨hall, by simp⟩
    have hkept : keptRows L (front ++ row :: back) =
        keptRows L front ++ row :: keptRows L back := by
      simp [keptRows, List.filter_append, List.filter_cons, hsurv]
    have hrowerr : sweepRow L header (indicesOf header) row 0 record.zero =
        .error .parseFloatPanic := by
      refine sweepRow_first_error L header _ row 0 j value record.zero _ (Nat.zero_le _)
        (by simpa using hj) ?_ hstep
      intro k v r1 _ hkj hv
      simp only [Nat.sub_zero] at hv
      have hklt : k < header.length := by
        have : j < header.length := by
          by_contra hge
          rw [List.getElem?_eq_none (by omega)] at hcol
          cases hcol
        omega
      exact cellStep_total L header k _ v r1 (List.getElem?_eq_getElem hklt)
        (hcells k _ v hkj (List.getElem?_eq_getElem hklt) hv)
    unfold parseDataset
    simp only [hfilter, hkept]
    exact recordsLoop_first_error L header _ (keptRows L front) row (keptRows L back) [] _
      (fun r hr => sweepRow_total_of_rowParses L header r
        (hfront r (List.mem_of_mem_filter hr)).2) hrowerr

/-- Witness for C13: the second row holds "n/a" in the German load_forecast
column. -/
theorem C13_bad_number_aborts_witness :
    mustParseFloat refLib "n/a" = .error .parseFloatPanic ∧
    (∀ rs, parseDataset refLib ⟨some germanHeader,
      some ([sampleRow] ++ ["2019-05-01T12:15:00Z", "1000.0", "n/a"] :: [sampleRow])⟩ ≠
        .ok rs) ∧
    ((∀ r ∈ [sampleRow], (rowTime refLib r).isSome = true ∧
        rowParses refLib germanHeader r = true) →
      (∀ r ∈ [sampleRow], (rowTime refLib r).isSome = true) →
      (∀ k name v, k < 2 → germanHeader[k]? = some name →
        ["2019-05-01T12:15:00Z", "1000.0", "n/a"][k]? = some v →
        cellParses refLib name v = true) →
      parseDataset refLib ⟨some germanHeader,
        some ([sampleRow] ++ ["2019-05-01T12:15:00Z", "1000.0", "n/a"] :: [sampleRow])⟩ =
        .error .parseFloatPanic) :=
  C13_bad_number_aborts refLib germanHeader [sampleRow]
    ["2019-05-01T12:15:00Z", "1000.0", "n/a"] [sampleRow] 2 "n/a" "DE"
    "load_forecast_entsoe_transparency" (by decide) (by decide) (by decide) (by decide)
    (by decide) (by decide) (by decide)


/-! ## Datasets that differ in some cells -/

theorem sweepRow_congr_cells (L : Lib) (header : List String) (indices : Indices)
    (row1 row2 : List String) (j0 : Nat) (r : record) (hlen : row1.length = row2.length)
    (hcell : ∀ k v1 v2 r0, j0 ≤ k → row1[k - j0]? = some v1 → row2[k - j0]? = some v2 →
      cellStep L header indices k v1 r0 = cellStep L header indices k v2 r0) :
    sweepRow L header indices row1 j0 r = sweepRow L header indices row2 j0 r := by
  induction row1 generalizing row2 j0 r with
  | nil =>
    cases row2 with
    | nil => rfl
    | cons _ _ => simp at hlen
  | cons v1 rest1 ih =>
    cases row2 with
    | nil => simp at hlen
    | cons v2 rest2 =>
      rw [sweepRow_cons, sweepRow_cons,
        hcell j0 v1 v2 r (le_refl _) (by simp) (by simp)]
      cases cellStep L header indices j0 v2 r with
      | error e => rfl
      | ok r2 =>
        refine ih rest2 (j0 + 1) r2 (by simpa using hlen) ?_
        intro k w1 w2 r0 hk h1 h2
        have e2 : k - j0 = (k - (j0 + 1)) + 1 := by omega
        refine hcell k w1 w2 r0 (by omega) ?_ ?_
        · rw [e2]; simpa using h1
        · rw [e2]; simpa using h2

theorem filterLoop_rel (L : Lib) (R : List String → List String → Prop)
    (hR0 : ∀ a b, R a b → a[0]? = b[0]?) (body1 body2 acc1 acc2 : List (List String))
    (hb : List.Forall₂ R body1 body2) (ha : List.Forall₂ R acc1 acc2) :
    (∃ e, filterLoop L body1 acc1 = .error e ∧ filterLoop L body2 acc2 = .error e) ∨
    (∃ f1 f2, filterLoop L body1 acc1 = .ok f1 ∧ filterLoop L body2 acc2 = .ok f2 ∧
      List.Forall₂ R f1 f2) := by
  induction hb generalizing acc1 acc2 with
  | nil => exact Or.inr ⟨acc1, acc2, rfl, rfl, ha⟩
  | @cons a b l1 l2 hab _ ih =>
    have h0 := hR0 a b hab
    unfold filterLoop
    rw [h0]
    cases b[0]? with
    | none => exact Or.inl ⟨_, rfl, rfl⟩
    | some cell =>
      simp only []
      cases L.parseTime cell with
      | none => exact Or.inl ⟨_, rfl, rfl⟩
      | some d =>
        simp only []
        by_cases hd : d.After filterCutoff = true
        · simp only [hd, if_true]
          exact ih _ _ (List.rel_append ha (List.Forall₂.cons hab List.Forall₂.nil))
        · simp only [hd, if_false]
          exact ih _ _ ha

theorem recordsLoop_congr (L : Lib) (header : List String) (indices : Indices)
    (rows1 rows2 : List (List String)) (records : List record)
    (h : List.Forall₂ (fun a b => sweepRow L header indices a 0 record.zero =
      sweepRow L header indices b 0 record.zero) rows1 rows2) :
    recordsLoop L header indices rows1 records = recordsLoop L header indices rows2 records := by
  induction h generalizing records with
  | nil => rfl
  | @cons a b l1 l2 hab _ ih =>
    unfold recordsLoop
    rw [hab]
    cases sweepRow L header indices b 0 record.zero with
    | error e => rfl
    | ok r => exact ih _

/-- Datasets over one header whose rows pair off with equal first cells and
equal sweeps have the same result. -/
theorem parseDataset_congr (L : Lib) (header : List String) (body1 body2 : List (List String))
    (h : List.Forall₂ (fun a b => a[0]? = b[0]? ∧
      sweepRow L header (indicesOf header) a 0 record.zero =
        sweepRow L header (indicesOf header) b 0 record.zero) body1 body2) :
    parseDataset L ⟨some header, some body1⟩ = parseDataset L ⟨some header, some body2⟩ := by
  unfold parseDataset
  simp only []
  rcases filterLoop_rel L _ (fun a b hab => hab.1) body1 body2 [] [] h List.Forall₂.nil with
    ⟨e, h1, h2⟩ | ⟨f1, f2, h1, h2, hf⟩
  · rw [h1, h2]
  · rw [h1, h2]
    exact recordsLoop_congr L header _ f1 f2 [] (List.Forall₂.imp (fun a b hab => hab.2) hf)

theorem matchesNoPrefix_spec (name : String) (h : matchesNoPrefix name = true) :
    name ≠ "utc_timestamp" ∧
    ∀ c ∈ countries, ∀ m ∈ columns, hasPrefixStr name (sprintfJoin c m) = false := by
  unfold matchesNoPrefix at h
  simp only [Bool.and_eq_true, decide_eq_true_eq, List.all_eq_true, Bool.not_eq_true'] at h
  exact h

theorem indicesOf_unmatched (header : List String) (k : Nat) (name : String)
    (hk : header[k]? = some name) (h : matchesNoPrefix name = true) :
    indicesOf header k = none := by
  obtain ⟨hne, hall⟩ := matchesNoPrefix_spec name h
  rw [Option.eq_none_iff_forall_not_mem]
  intro c hc
  obtain ⟨hcm, m, hm, hp⟩ := (indicesOf_iff header k name hk hne c).mp hc
  rw [hall c hcm m hm] at hp
  cases hp

/-! ## Claims on ignored columns -/

/-- C15 (counterexample): the first column is named "region", which matches
no configured combination and is not "utc_timestamp"; two datasets that
differ only in the cell of that column have different results, because the
filter reads the first cell of every row. -/
theorem C15_counterexample :
    matchesNoPrefix "region" = true ∧
    parseDataset refLib ⟨some ["region", "utc_timestamp"],
      some [["2019-05-01T12:00:00Z", "2019-05-01T12:00:00Z"]]⟩ =
      .ok [⟨sampleTime, "", Float64.zero, Float64.zero⟩] ∧
    parseDataset refLib ⟨some ["region", "utc_timestamp"],
      some [["north", "2019-05-01T12:00:00Z"]]⟩ = .error .parsingDatetime := by
  decide

/-- C15 (amended): a header column that matches no configured combination
(and is not "utc_timestamp") is absent from the column index, and when it is
not the first column its cells are ignored: two datasets over the same header
whose rows differ only in the cells of such columns have the same result
(the same records, or the same failure). -/
theorem C15_unmatched_columns_ignored (L : Lib) (header : List String)
    (body1 body2 : List (List String))
    (hsame : List.Forall₂ (agreeOutside (ignoredColumn header)) body1 body2) :
    (∀ k name, header[k]? = some name → matchesNoPrefix name = true →
      buildIndices countries columns (rangeFrom header 0) k = none) ∧
    parseDataset L ⟨some header, some body1⟩ = parseDataset L ⟨some header, some body2⟩ := by
  refine ⟨fun k name hk hm => indicesOf_unmatched header k name hk hm, ?_⟩
  refine parseDataset_congr L header body1 body2 (List.Forall₂.imp ?_ hsame)
  intro a b hab
  obtain ⟨hlen, hcells⟩ := hab
  refine ⟨hcells 0 (fun h0 => by simp [ignoredColumn] at h0), ?_⟩
  refine sweepRow_congr_cells L header _ a b 0 record.zero hlen ?_
  intro k v1 v2 r0 _ h1 h2
  simp only [Nat.sub_zero] at h1 h2
  by_cases hign : ignoredColumn header k
  · obtain ⟨_, name, hname, hm⟩ := hign
    have hnone := indicesOf_unmatched header k name hname hm
    have hne := (matchesNoPrefix_spec name hm).1
    unfold cellStep
    simp only [hname, hne, if_false, hnone]
  · have := hcells k hign
    rw [h1, h2] at this
    rw [Option.some.inj this]

/-- Witness for C15: the local-time column of the dataset, in second
position, holds different cells in the two datasets. -/
theorem C15_unmatched_columns_ignored_witness :
    (∀ k name, ["utc_timestamp", "cet_cest_timestamp",
        "DE_load_actual_entsoe_transparency"][k]? = some name →
      matchesNoPrefix name = true →
      buildIndices countries columns (rangeFrom ["utc_timestamp", "cet_cest_timestamp",
        "DE_load_actual_entsoe_transparency"] 0) k = none) ∧
    parseDataset refLib ⟨some ["utc_timestamp", "cet_cest_timestamp",
        "DE_load_actual_entsoe_transparency"],
      some [["2019-05-01T12:00:00Z", "2019-05-01T14:00:00+0200", "1000.0"]]⟩ =
    parseDataset refLib ⟨some ["utc_timestamp", "cet_cest_timestamp",
        "DE_load_actual_entsoe_transparency"],
      some [["2019-05-01T12:00:00Z", "", "1000.0"]]⟩ :=
  C15_unmatched_columns_ignored refLib
    ["utc_timestamp", "cet_cest_timestamp", "DE_load_actual_entsoe_transparency"]
    [["2019-05-01T12:00:00Z", "2019-05-01T14:00:00+0200", "1000.0"]]
    [["2019-05-01T12:00:00Z", "", "1000.0"]]
    (List.Forall₂.cons ⟨rfl, fun k hk => by
      match k with
      | 0 => rfl
      | 1 => exact absurd ⟨le_refl 1, "cet_cest_timestamp", rfl, by decide⟩ hk
      | 2 => rfl
      | n + 3 => rfl⟩ List.Forall₂.nil)


/-! ## Removing a column -/

theorem indicesOf_none (header : List String) (k : Nat) (hk : header[k]? = none) :
    indicesOf header k = none := by
  rw [Option.eq_none_iff_forall_not_mem]
  intro c hc
  refine indexColumns_sound countries (rangeFrom header 0) k (fun _ => False) columns
    ?_ Indices.empty (by simp [Indices.empty]) c hc
  intro column _ col c0 hmem _
  have := ((mem_rangeFrom header 0 k col).mp hmem).2
  simp only [Nat.sub_zero] at this
  rw [hk] at this
  cases this

/-- The index entry of a position depends on the column name there only. -/
theorem indicesOf_congr (h1 h2 : List String) (k1 k2 : Nat) (heq : h1[k1]? = h2[k2]?) :
    indicesOf h1 k1 = indicesOf h2 k2 := by
  cases hn : h2[k2]? with
  | none =>
    rw [hn] at heq
    rw [indicesOf_none h1 k1 heq, indicesOf_none h2 k2 hn]
  | some name =>
    rw [hn] at heq
    by_cases hu : name = "utc_timestamp"
    · subst hu
      exact (buildIndices_timestamp h1 k1 heq).trans (buildIndices_timestamp h2 k2 hn).symm
    · apply Option.ext
      intro c
      rw [Option.mem_def, Option.mem_def, indicesOf_iff h1 k1 name heq hu c,
        indicesOf_iff h2 k2 name hn hu c]

theorem cellStep_pos_congr (L : Lib) (h1 h2 : List String) (i1 i2 : Indices) (k1 k2 : Nat)
    (hh : h1[k1]? = h2[k2]?) (hi : i1 k1 = i2 k2) (value : String) (r : record) :
    cellStep L h1 i1 k1 value r = cellStep L h2 i2 k2 value r := by
  unfold cellStep
  rw [hh, hi]

theorem resRel_refl {α : Type} (Rel : α → α → Prop) (hrefl : ∀ a, Rel a a)
    (x : Except Failure α) : resRel Rel x x := by
  cases x with
  | error e => exact rfl
  | ok a => exact hrefl a

theorem resRel_eq {α : Type} (x y : Except Failure α) (h : resRel Eq x y) : x = y := by
  cases x <;> cases y <;> simp_all [resRel]

/-- The loop body maps records that agree on the readings to outcomes that
agree on the readings. -/
theorem cellStep_sameReadings (L : Lib) (header : List String) (indices : Indices)
    (k : Nat) (value : String) (r r2 : record) (h : sameReadings r r2) :
    resRel sameReadings (cellStep L header indices k value r)
      (cellStep L header indices k value r2) := by
  obtain ⟨ht, ha, hf⟩ := h
  unfold cellStep
  cases header[k]? with
  | none => exact rfl
  | some name =>
    simp only []
    by_cases hn : name = "utc_timestamp"
    · simp only [hn, if_true]
      cases L.parseTime value with
      | none => exact rfl
      | some t => exact ⟨rfl, ha, hf⟩
    · simp only [hn, if_false]
      cases indices k with
      | none => exact ⟨ht, ha, hf⟩
      | some c =>
        simp only []
        cases sliceFrom name (c.length + 1) with
        | none => exact rfl
        | some column =>
          simp only []
          by_cases h1 : column = "load_actual_entsoe_transparency"
          · simp only [h1, if_true]
            cases mustParseFloat L value with
            | error e => exact rfl
            | ok f => exact ⟨ht, rfl, hf⟩
          · simp only [h1, if_false]
            by_cases h2 : column = "load_forecast_entsoe_transparency"
            · simp only [h2, if_true]
              cases mustParseFloat L value with
              | error e => exact rfl
              | ok f => exact ⟨ht, ha, rfl⟩
            · simp only [h2, if_false]
              exact ⟨ht, ha, hf⟩

/-- After a position that writes the country, records that agreed on the
readings are equal. -/
theorem cellStep_country_equalises (L : Lib) (header : List String) (indices : Indices)
    (k : Nat) (value : String) (r r2 out out2 : record) (h : sameReadings r r2)
    (hw : writesCountry header indices k)
    (h1 : cellStep L header indices k value r = .ok out)
    (h2 : cellStep L header indices k value r2 = .ok out2) : out = out2 := by
  have hrel := cellStep_sameReadings L header indices k value r r2 h
  rw [h1, h2] at hrel
  obtain ⟨ht, ha, hf⟩ := hrel
  have c1 := (cellStep_country L header indices k value r out h1).1 hw
  have c2 := (cellStep_country L header indices k value r2 out2 h2).1 hw
  rw [c1] at c2
  have hc : out.CountryCode = out2.CountryCode := Option.some.inj c2
  cases out
  cases out2
  simp only [record.mk.injEq]
  exact ⟨ht, hc, ha, hf⟩

theorem sweepRow_shift_eq (L : Lib) (h1 h2 : List String) (i1 i2 : Indices)
    (cells : List String) (a b : Nat) (r : record)
    (hpos : ∀ i, i < cells.length → h1[a + i]? = h2[b + i]? ∧ i1 (a + i) = i2 (b + i)) :
    sweepRow L h1 i1 cells a r = sweepRow L h2 i2 cells b r := by
  induction cells generalizing a b r with
  | nil => simp [sweepRow]
  | cons v rest ih =>
    have h0 := hpos 0 (by simp)
    rw [sweepRow_cons, sweepRow_cons, cellStep_pos_congr L h1 h2 i1 i2 a b h0.1 h0.2]
    cases cellStep L h2 i2 b v r with
    | error e => rfl
    | ok r2 =>
      refine ih (a + 1) (b + 1) r2 ?_
      intro i hi
      have := hpos (i + 1) (by simp; omega)
      have ea : a + 1 + i = a + (i + 1) := by omega
      have eb : b + 1 + i = b + (i + 1) := by omega
      rw [ea, eb]
      exact this

theorem sweepRow_shift_rel (L : Lib) (h1 h2 : List String) (i1 i2 : Indices)
    (cells : List String) (a b : Nat) (r r2 : record)
    (hpos : ∀ i, i < cells.length → h1[a + i]? = h2[b + i]? ∧ i1 (a + i) = i2 (b + i))
    (hr : sameReadings r r2) :
    resRel sameReadings (sweepRow L h1 i1 cells a r) (sweepRow L h2 i2 cells b r2) := by
  induction cells generalizing a b r r2 with
  | nil => simpa [sweepRow, resRel] using hr
  | cons v rest ih =>
    have h0 := hpos 0 (by simp)
    rw [sweepRow_cons, sweepRow_cons, ← cellStep_pos_congr L h1 h2 i1 i2 a b h0.1 h0.2]
    have hstep := cellStep_sameReadings L h1 i1 a v r r2 hr
    cases hc1 : cellStep L h1 i1 a v r with
    | error e =>
      cases hc2 : cellStep L h1 i1 a v r2 with
      | error e2 =>
        rw [hc1, hc2] at hstep
        exact hstep
      | ok o2 =>
        rw [hc1, hc2] at hstep
        exact hstep.elim
    | ok o1 =>
      cases hc2 : cellStep L h1 i1 a v r2 with
      | error e2 =>
        rw [hc1, hc2] at hstep
        exact hstep.elim
      | ok o2 =>
        rw [hc1, hc2] at hstep
        refine ih (a + 1) (b + 1) o1 o2 ?_ hstep
        intro i hi
        have := hpos (i + 1) (by simp; omega)
        have ea : a + 1 + i = a + (i + 1) := by omega
        have eb : b + 1 + i = b + (i + 1) := by omega
        rw [ea, eb]
        exact this

theorem sweepRow_shift_rel_eq (L : Lib) (h1 h2 : List String) (i1 i2 : Indices)
    (cells : List String) (a b : Nat) (r r2 : record)
    (hpos : ∀ i, i < cells.length → h1[a + i]? = h2[b + i]? ∧ i1 (a + i) = i2 (b + i))
    (hr : r = r2 ∨ (sameReadings r r2 ∧ ∃ i, i < cells.length ∧ writesCountry h1 i1 (a + i))) :
    sweepRow L h1 i1 cells a r = sweepRow L h2 i2 cells b r2 := by
  induction cells generalizing a b r r2 with
  | nil =>
    rcases hr with rfl | ⟨_, i, hi, _⟩
    · rfl
    · simp at hi
  | cons v rest ih =>
    have hpos2 : ∀ i, i < rest.length →
        h1[a + 1 + i]? = h2[b + 1 + i]? ∧ i1 (a + 1 + i) = i2 (b + 1 + i) := by
      intro i hi
      have := hpos (i + 1) (by simp; omega)
      have ea : a + 1 + i = a + (i + 1) := by omega
      have eb : b + 1 + i = b + (i + 1) := by omega
      rw [ea, eb]
      exact this
    rcases hr with rfl | ⟨hsame, i, hi, hw⟩
    · exact sweepRow_shift_eq L h1 h2 i1 i2 (v :: rest) a b r hpos
    · have h0 := hpos 0 (by simp)
      rw [sweepRow_cons, sweepRow_cons, ← cellStep_pos_congr L h1 h2 i1 i2 a b h0.1 h0.2]
      have hstep := cellStep_sameReadings L h1 i1 a v r r2 hsame
      cases hc1 : cellStep L h1 i1 a v r with
      | error e =>
        cases hc2 : cellStep L h1 i1 a v r2 with
        | error e2 =>
          rw [hc1, hc2] at hstep
          have : e = e2 := hstep
          rw [this]
        | ok o2 =>
          rw [hc1, hc2] at hstep
          exact hstep.elim
      | ok o1 =>
        cases hc2 : cellStep L h1 i1 a v r2 with
        | error e2 =>
          rw [hc1, hc2] at hstep
          exact hstep.elim
        | ok o2 =>
          rw [hc1, hc2] at hstep
          refine ih (a + 1) (b + 1) o1 o2 hpos2 ?_
          cases i with
          | zero =>
            left
            exact cellStep_country_equalises L h1 i1 a v r r2 o1 o2 hsame
              (by simpa using hw) hc1 hc2
          | succ n =>
            right
            refine ⟨hstep, n, by simpa using hi, ?_⟩
            have ea : a + 1 + n = a + (n + 1) := by omega
            rw [ea]
            exact hw

theorem sweepRow_append (L : Lib) (header : List String) (indices : Indices)
    (l1 l2 : List String) (j : Nat) (r : record) :
    sweepRow L header indices (l1 ++ l2) j r =
      match sweepRow L header indices l1 j r with
      | .error e => .error e
      | .ok r1 => sweepRow L header indices l2 (j + l1.length) r1 := by
  induction l1 generalizing j r with
  | nil => simp [sweepRow]
  | cons v rest ih =>
    rw [List.cons_append, sweepRow_cons, sweepRow_cons]
    cases cellStep L header indices j v r with
    | error e => rfl
    | ok r2 =>
      simp only []
      rw [ih (j + 1) r2]
      have : j + 1 + rest.length = j + (v :: rest).length := by
        simp only [List.length_cons]; omega
      rw [this]


theorem cellStep_otherMetric (L : Lib) (header : List String) (p : Nat)
    (hcol : otherMetricColumn header p) (value : String) (r : record) :
    ∃ c, cellStep L header (indicesOf header) p value r = .ok { r with CountryCode := c } := by
  obtain ⟨name, c, metric, hname, hn, hi, hs, h1, h2⟩ := hcol
  refine ⟨c, ?_⟩
  unfold cellStep
  simp only [hname, hn, if_false, hi, hs, h1, h2]

/-- Sweeping a row with and without the cell of a column that is indexed but
is no load column, the header being shortened alike. -/
theorem sweepRow_erase_split (L : Lib) (header front : List String) (v : String)
    (back : List String) (p : Nat) (hlen : front.length = p)
    (hcol : otherMetricColumn header p) (r0 : record) :
    resRel sameReadings
      (sweepRow L header (indicesOf header) (front ++ v :: back) 0 r0)
      (sweepRow L (header.eraseIdx p) (indicesOf (header.eraseIdx p)) (front ++ back) 0 r0) ∧
    ((∃ k, p < k ∧ k < (front ++ v :: back).length ∧
        writesCountry header (indicesOf header) k) →
      sweepRow L header (indicesOf header) (front ++ v :: back) 0 r0 =
        sweepRow L (header.eraseIdx p) (indicesOf (header.eraseIdx p)) (front ++ back) 0 r0) := by
  have hbefore : ∀ i, i < front.length →
      header[0 + i]? = (header.eraseIdx p)[0 + i]? ∧
      indicesOf header (0 + i) = indicesOf (header.eraseIdx p) (0 + i) := by
    intro i hi
    have e : header[0 + i]? = (header.eraseIdx p)[0 + i]? := by
      rw [Nat.zero_add, List.getElem?_eraseIdx_of_lt header p i (by omega)]
    exact ⟨e, indicesOf_congr _ _ _ _ e⟩
  have hafter : ∀ i, i < back.length →
      header[p + 1 + i]? = (header.eraseIdx p)[p + i]? ∧
      indicesOf header (p + 1 + i) = indicesOf (header.eraseIdx p) (p + i) := by
    intro i _
    have e : header[p + 1 + i]? = (header.eraseIdx p)[p + i]? := by
      rw [List.getElem?_eraseIdx_of_ge header p (p + i) (by omega)]
      congr 1
      omega
    exact ⟨e, indicesOf_congr _ _ _ _ e⟩
  rw [sweepRow_append, sweepRow_append,
    sweepRow_shift_eq L header (header.eraseIdx p) _ _ front 0 0 r0 hbefore]
  cases sweepRow L (header.eraseIdx p) (indicesOf (header.eraseIdx p)) front 0 r0 with
  | error e => exact ⟨rfl, fun _ => rfl⟩
  | ok r1 =>
    simp only [Nat.zero_add, hlen]
    obtain ⟨c, hc⟩ := cellStep_otherMetric L header p hcol v r1
    rw [sweepRow_cons, hc]
    simp only []
    have hsame : sameReadings { r1 with CountryCode := c } r1 := ⟨rfl, rfl, rfl⟩
    refine ⟨sweepRow_shift_rel L header (header.eraseIdx p) _ _ back (p + 1) p _ r1
      hafter hsame, ?_⟩
    rintro ⟨k, hpk, hk, hw⟩
    refine sweepRow_shift_rel_eq L header (header.eraseIdx p) _ _ back (p + 1) p _ r1
      hafter (Or.inr ⟨hsame, k - (p + 1), ?_, ?_⟩)
    · simp only [List.length_append, List.length_cons] at hk
      omega
    · have : p + 1 + (k - (p + 1)) = k := by omega
      rw [this]
      exact hw

theorem sweepRow_erase (L : Lib) (header row : List String) (p : Nat)
    (hcol : otherMetricColumn header p) :
    resRel sameReadings
      (sweepRow L header (indicesOf header) row 0 record.zero)
      (sweepRow L (header.eraseIdx p) (indicesOf (header.eraseIdx p)) (row.eraseIdx p) 0
        record.zero) ∧
    ((∃ k, p < k ∧ k < row.length ∧ writesCountry header (indicesOf header) k) →
      sweepRow L header (indicesOf header) row 0 record.zero =
        sweepRow L (header.eraseIdx p) (indicesOf (header.eraseIdx p)) (row.eraseIdx p) 0
          record.zero) := by
  by_cases hp : p < row.length
  · have hsplit : row = row.take p ++ row[p] :: row.drop (p + 1) := by
      rw [← List.drop_eq_getElem_cons hp, List.take_append_drop]
    have herase : row.eraseIdx p = row.take p ++ row.drop (p + 1) :=
      List.eraseIdx_eq_take_drop_succ row p
    have hlen : (row.take p).length = p := by
      rw [List.length_take]
      omega
    have key := sweepRow_erase_split L header (row.take p) row[p] (row.drop (p + 1)) p hlen
      hcol record.zero
    rw [← hsplit, ← herase] at key
    exact key
  · have herase : row.eraseIdx p = row := List.eraseIdx_of_length_le (by omega)
    rw [herase]
    have heq : sweepRow L header (indicesOf header) row 0 record.zero =
        sweepRow L (header.eraseIdx p) (indicesOf (header.eraseIdx p)) row 0 record.zero := by
      refine sweepRow_shift_eq L header (header.eraseIdx p) _ _ row 0 0 record.zero ?_
      intro i hi
      have e : header[0 + i]? = (header.eraseIdx p)[0 + i]? := by
        rw [Nat.zero_add, List.getElem?_eraseIdx_of_lt header p i (by omega)]
      exact ⟨e, indicesOf_congr _ _ _ _ e⟩
    refine ⟨?_, fun _ => heq⟩
    rw [heq]
    exact resRel_refl sameReadings (fun a => ⟨rfl, rfl, rfl⟩) _

theorem recordsLoop_rel (L : Lib) (h1 h2 : List String) (i1 i2 : Indices)
    (Rel : record → record → Prop) (rows1 rows2 : List (List String))
    (acc1 acc2 : List record)
    (hrows : List.Forall₂ (fun a b => resRel Rel (sweepRow L h1 i1 a 0 record.zero)
      (sweepRow L h2 i2 b 0 record.zero)) rows1 rows2)
    (hacc : List.Forall₂ Rel acc1 acc2) :
    resRel (List.Forall₂ Rel) (recordsLoop L h1 i1 rows1 acc1)
      (recordsLoop L h2 i2 rows2 acc2) := by
  induction hrows generalizing acc1 acc2 with
  | nil => exact hacc
  | @cons a b l1 l2 hab _ ih =>
    unfold recordsLoop
    cases hs1 : sweepRow L h1 i1 a 0 record.zero with
    | error e =>
      cases hs2 : sweepRow L h2 i2 b 0 record.zero with
      | error e2 =>
        rw [hs1, hs2] at hab
        exact hab
      | ok o2 =>
        rw [hs1, hs2] at hab
        exact hab.elim
    | ok o1 =>
      cases hs2 : sweepRow L h2 i2 b 0 record.zero with
      | error e2 =>
        rw [hs1, hs2] at hab
        exact hab.elim
      | ok o2 =>
        rw [hs1, hs2] at hab
        exact ih _ _ (List.rel_append hacc (List.Forall₂.cons hab List.Forall₂.nil))

theorem forall₂_map_self {α β : Type} (f : α → β) (l : List α) :
    List.Forall₂ (fun a b => b = f a) l (l.map f) := by
  induction l with
  | nil => exact List.Forall₂.nil
  | cons a rest ih => exact List.Forall₂.cons rfl ih


theorem parseDataset_eq (L : Lib) (header : List String) (body : List (List String)) :
    parseDataset L ⟨some header, some body⟩ =
      match filterLoop L body [] with
      | .error e => .error e
      | .ok filtered => recordsLoop L header (indicesOf header) filtered [] := rfl

/-- C16 (counterexample): the third column is in the index under "DE" and its
metric name is neither load metric; removing it from the header and from the
row changes the CountryCode of the record from "DE" to "AT". -/
theorem C16_counterexample :
    indicesOf legacyHeader 2 = some "DE" ∧
    sliceFrom "DE_load_actual_entsoe_transparency_old" 3 =
      some "load_actual_entsoe_transparency_old" ∧
    parseDataset refLib ⟨some legacyHeader, some [sampleRow]⟩ =
      .ok [⟨sampleTime, "DE", f1000, Float64.zero⟩] ∧
    parseDataset refLib ⟨some (legacyHeader.eraseIdx 2), some [sampleRow.eraseIdx 2]⟩ =
      .ok [⟨sampleTime, "AT", f1000, Float64.zero⟩] := by
  decide

/-- C16 (amended): the cell of a column that is in the column index but whose
metric name is neither load_actual_entsoe_transparency nor
load_forecast_entsoe_transparency is never parsed, but the column still
assigns CountryCode.  Removing such a column (not the first one) from the
header and from every row leaves the outcome of `parseDataset` the same
failure or, on success, leaves DateTimeUTC, LoadActual and LoadForecast of
every record unchanged; the records are unchanged altogether when every row
has a later non-timestamp column in the index. -/
theorem C16_other_metric_column_removed (L : Lib) (header : List String)
    (body : List (List String)) (p : Nat) (hp : 1 ≤ p) (hcol : otherMetricColumn header p) :
    (∃ e, parseDataset L ⟨some header, some body⟩ = .error e ∧
      parseDataset L ⟨some (header.eraseIdx p), some (body.map (fun row => row.eraseIdx p))⟩ =
        .error e) ∨
    (∃ rs rs2, parseDataset L ⟨some header, some body⟩ = .ok rs ∧
      parseDataset L ⟨some (header.eraseIdx p), some (body.map (fun row => row.eraseIdx p))⟩ =
        .ok rs2 ∧
      List.Forall₂ sameReadings rs rs2 ∧
      ((∀ row ∈ body, ∃ k, p < k ∧ k < row.length ∧
          writesCountry header (indicesOf header) k) → rs2 = rs)) := by
  rw [parseDataset_eq, parseDataset_eq]
  have hfl := filterLoop_rel L (fun a b => b = a.eraseIdx p)
    (fun a b hab => by
      rw [hab, List.getElem?_eraseIdx_of_lt a p 0 (by omega)])
    body (body.map (fun row => row.eraseIdx p)) [] []
    (forall₂_map_self _ body) List.Forall₂.nil
  rcases hfl with ⟨e, h1, h2⟩ | ⟨f1, f2, h1, h2, hf⟩
  · left
    exact ⟨e, by rw [h1], by rw [h2]⟩
  · obtain ⟨_, hk⟩ := (filterLoop_ok_iff L body [] f1).mp h1
    simp only [List.nil_append] at hk
    rw [h1, h2]
    simp only []
    have rel1 := recordsLoop_rel L header (header.eraseIdx p) (indicesOf header)
      (indicesOf (header.eraseIdx p)) sameReadings f1 f2 [] []
      (List.Forall₂.imp (fun a b hab => by
        rw [hab]
        exact (sweepRow_erase L header a p hcol).1) hf) List.Forall₂.nil
    cases hr1 : recordsLoop L header (indicesOf header) f1 [] with
    | error e =>
      cases hr2 : recordsLoop L (header.eraseIdx p) (indicesOf (header.eraseIdx p)) f2 [] with
      | error e2 =>
        rw [hr1, hr2] at rel1
        left
        have : e = e2 := rel1
        exact ⟨e, rfl, by rw [this]⟩
      | ok o2 =>
        rw [hr1, hr2] at rel1
        exact rel1.elim
    | ok rs =>
      cases hr2 : recordsLoop L (header.eraseIdx p) (indicesOf (header.eraseIdx p)) f2 [] with
      | error e2 =>
        rw [hr1, hr2] at rel1
        exact rel1.elim
      | ok rs2 =>
        rw [hr1, hr2] at rel1
        right
        refine ⟨rs, rs2, rfl, rfl, rel1, ?_⟩
        intro hlater
        have rel2 := recordsLoop_rel L header (header.eraseIdx p) (indicesOf header)
          (indicesOf (header.eraseIdx p)) Eq f1 f2 [] []
          (forall₂_imp_mem hf (fun a b ha hab => by
            rw [hab, ← (sweepRow_erase L header a p hcol).2
              (hlater a (by
                rw [hk] at ha
                exact List.mem_of_mem_filter ha))]
            exact resRel_refl Eq (fun _ => rfl) _)) List.Forall₂.nil
        rw [hr1, hr2] at rel2
        have h3 : List.Forall₂ Eq rs rs2 := rel2
        rw [List.forall₂_eq_eq_eq] at h3
        exact h3.symm

/-- Witness for C16: the legacy column stands before the load column. -/
theorem C16_other_metric_column_removed_witness :
    (∃ e, parseDataset refLib ⟨some legacyFirstHeader, some [sampleRow]⟩ = .error e ∧
      parseDataset refLib ⟨some (legacyFirstHeader.eraseIdx 1),
        some ([sampleRow].map (fun row => row.eraseIdx 1))⟩ = .error e) ∨
    (∃ rs rs2, parseDataset refLib ⟨some legacyFirstHeader, some [sampleRow]⟩ = .ok rs ∧
      parseDataset refLib ⟨some (legacyFirstHeader.eraseIdx 1),
        some ([sampleRow].map (fun row => row.eraseIdx 1))⟩ = .ok rs2 ∧
      List.Forall₂ sameReadings rs rs2 ∧
      ((∀ row ∈ [sampleRow], ∃ k, 1 < k ∧ k < row.length ∧
          writesCountry legacyFirstHeader (indicesOf legacyFirstHeader) k) → rs2 = rs)) :=
  C16_other_metric_column_removed refLib legacyFirstHeader [sampleRow] 1 (by decide)
    ⟨"DE_load_actual_entsoe_transparency_old", "DE", "load_actual_entsoe_transparency_old",
      by decide, by decide, by decide, by decide, by decide, by decide⟩


/-! ## The characters of an encoded message -/

theorem toDigitsCore_chars (P : Char → Prop) (hP : ∀ k, k < 10 → P (Nat.digitChar k))
    (fuel n : Nat) (ds : List Char) (hds : ∀ c ∈ ds, P c) :
    ∀ c ∈ Nat.toDigitsCore 10 fuel n ds, P c := by
  induction fuel generalizing n ds with
  | zero => simpa [Nat.toDigitsCore] using hds
  | succ fuel ih =>
    have hcons : ∀ c ∈ Nat.digitChar (n % 10) :: ds, P c := by
      intro c hc
      rcases List.mem_cons.mp hc with rfl | h
      · exact hP _ (Nat.mod_lt _ (by decide))
      · exact hds c h
    unfold Nat.toDigitsCore
    simp only []
    split
    · exact hcons
    · exact ih _ _ hcons

theorem natDecimal_chars (n : Nat) : ∀ c ∈ (natDecimal n).data, c.isDigit = true := by
  have hd : ∀ k, k < 10 → (Nat.digitChar k).isDigit = true := by decide
  exact toDigitsCore_chars (fun c => c.isDigit = true) hd (n + 1) n [] (by simp)

theorem sixDigits_chars (n : Nat) : ∀ c ∈ sixDigits n, c.isDigit = true := by
  intro ch hch
  have hd : ∀ k, k < 10 → (Nat.digitChar k).isDigit = true := by decide
  simp only [sixDigits, List.mem_cons, List.mem_singleton, List.not_mem_nil, or_false] at hch
  rcases hch with rfl | rfl | rfl | rfl | rfl | rfl <;>
    exact hd _ (Nat.mod_lt _ (by decide))

/-- The rendering of a number holds neither a comma nor a blank. -/
theorem formatFloat_chars (x : Float64) :
    ∀ c ∈ (formatFloat x).data, c ≠ ',' ∧ c ≠ ' ' := by
  have hdig : ∀ c : Char, c.isDigit = true → c ≠ ',' ∧ c ≠ ' ' := by
    intro c hc
    constructor <;> (rintro rfl; revert hc; decide)
  unfold formatFloat
  split
  · split
    · split <;> decide
    · decide
  · intro c hc
    simp only [String.data_append, List.mem_append] at hc
    rcases hc with ((hc | hc) | hc) | hc
    · split at hc
      · simp only [String.data, List.mem_singleton] at hc
        subst hc
        decide
      · simp at hc
    · exact hdig c (natDecimal_chars _ c hc)
    · have : c = '.' := by simpa using hc
      subst this
      decide
    · exact hdig c (sixDigits_chars _ c hc)

theorem splitAtChar_append (sep : Char) (a b : List Char) (ha : sep ∉ a) :
    splitAtChar sep (a ++ sep :: b) = some (a, b) := by
  induction a with
  | nil => simp [splitAtChar]
  | cons x xs ih =>
    have hx : x ≠ sep := fun h => ha (h ▸ List.mem_cons_self _ _)
    have hxs : sep ∉ xs := fun h => ha (List.mem_cons_of_mem _ h)
    simp [splitAtChar, hx, ih hxs]

theorem dropLiteral_append (lit rest : List Char) :
    dropLiteral lit (lit ++ rest) = some rest := by
  unfold dropLiteral
  have : lit.isPrefixOf (lit ++ rest) = true :=
    List.isPrefixOf_iff_prefix.mpr (List.prefix_append _ _)
  rw [if_pos this, List.drop_left]

theorem convertToLineProtocol_eq (now : Int) (r : record) :
    convertToLineProtocol now r =
      .ok ("sensor,country=" ++ r.CountryCode ++ " load_actual=" ++ formatFloat r.LoadActual ++
        ",load_forecast=" ++ formatFloat r.LoadForecast ++ " " ++ intDecimal now) := by
  simp only [convertToLineProtocol, String.append_assoc, String.empty_append]
  rfl

/-- Splitting an encoded message gives back the country code, when it holds
no blank, and the renderings of the two loads. -/
theorem decodeLine_encoded (now : Int) (r : record) (hblank : ' ' ∉ r.CountryCode.data) :
    decodeLine ("sensor,country=" ++ r.CountryCode ++ " load_actual=" ++
        formatFloat r.LoadActual ++ ",load_forecast=" ++ formatFloat r.LoadForecast ++ " " ++
        intDecimal now) =
      some (r.CountryCode, formatFloat r.LoadActual, formatFloat r.LoadForecast) := by
  have hdata : ("sensor,country=" ++ r.CountryCode ++ " load_actual=" ++
        formatFloat r.LoadActual ++ ",load_forecast=" ++ formatFloat r.LoadForecast ++ " " ++
        intDecimal now).data =
      "sensor,country=".data ++ (r.CountryCode.data ++ ' ' :: ("load_actual=".data ++
        ((formatFloat r.LoadActual).data ++ ',' :: ("load_forecast=".data ++
          ((formatFloat r.LoadForecast).data ++ ' ' :: (intDecimal now).data))))) := by
    have e1 : (" load_actual=" : String).data = ' ' :: "load_actual=".data := rfl
    have e2 : (",load_forecast=" : String).data = ',' :: "load_forecast=".data := rfl
    have e3 : (" " : String).data = [' '] := rfl
    simp only [String.data_append, e1, e2, e3, List.append_assoc, List.cons_append,
      List.nil_append]
  have hA : ',' ∉ (formatFloat r.LoadActual).data :=
    fun h => (formatFloat_chars _ _ h).1 rfl
  have hF : ' ' ∉ (formatFloat r.LoadForecast).data :=
    fun h => (formatFloat_chars _ _ h).2 rfl
  unfold decodeLine
  rw [hdata, dropLiteral_append]
  simp only [Option.some_bind]
  rw [splitAtChar_append ' ' _ _ hblank]
  simp only [Option.some_bind]
  rw [dropLiteral_append]
  simp only [Option.some_bind]
  rw [splitAtChar_append ',' _ _ hA]
  simp only [Option.some_bind]
  rw [dropLiteral_append]
  simp only [Option.some_bind]
  rw [splitAtChar_append ' ' _ _ hF]
  simp only [Option.some_bind]


theorem reparseLine_of_decode (L : Lib) (s c a f : String) (x y : Float64)
    (hd : decodeLine s = some (c, a, f)) (hx : L.parseFloat a = some x)
    (hy : L.parseFloat f = some y) : reparseLine L s = some (c, x, y) := by
  unfold reparseLine
  rw [hd]
  simp only [Option.some_bind, hx, hy]

theorem parse_rendered_f1000 : refLib.parseFloat (formatFloat f1000) = some f1000 := by decide

theorem parse_rendered_f1100 : refLib.parseFloat (formatFloat f1100) = some f1100 := by decide

/-! ## Claims on the round trip -/

set_option exponentiation.threshold 1100 in
/-- C18 (counterexample): the record with LoadActual 2^-24 and the record with
LoadActual 0.0 are encoded to the same message, so no re-parsing can recover
the load of both; re-parsing the message gives 0.0. -/
theorem C18_counterexample :
    convertToLineProtocol 0 ⟨sampleTime, "DE", fTiny, f1100⟩ =
      convertToLineProtocol 0 ⟨sampleTime, "DE", Float64.zero, f1100⟩ ∧
    fTiny ≠ Float64.zero ∧
    convertToLineProtocol 0 ⟨sampleTime, "DE", fTiny, f1100⟩ =
      .ok "sensor,country=DE load_actual=0.000000,load_forecast=1100.000000 0" ∧
    reparseLine refLib "sensor,country=DE load_actual=0.000000,load_forecast=1100.000000 0" =
      some ("DE", Float64.zero, f1100) ∧
    fTiny.toRat = 1 / 16777216 ∧ Float64.zero.toRat = 0 := by
  refine ⟨by decide, by decide, by decide, by decide, ?_, ?_⟩
  · norm_num [Float64.toRat, fTiny]
  · norm_num [Float64.toRat, Float64.zero]

/-- C18 (amended): for records whose country code holds no blank (every
configured code qualifies), the message produced at a given instant
determines the CountryCode and the six-fractional-digit renderings of
LoadActual and LoadForecast, and nothing more of the loads: two records give
the same message exactly when they agree on these three; splitting the
message recovers them, parsing the two renderings gives the loads up to the
rounding to six fractional digits, and 1000.0 and 1100.0 are recovered
exactly. -/
theorem C18_round_trip_up_to_rendering (L : Lib) (now : Int) (r r2 : record)
    (hb : ' ' ∉ r.CountryCode.data) (hb2 : ' ' ∉ r2.CountryCode.data) :
    (convertToLineProtocol now r = convertToLineProtocol now r2 ↔
      r.CountryCode = r2.CountryCode ∧
      formatFloat r.LoadActual = formatFloat r2.LoadActual ∧
      formatFloat r.LoadForecast = formatFloat r2.LoadForecast) ∧
    (∃ s, convertToLineProtocol now r = .ok s ∧
      decodeLine s = some (r.CountryCode, formatFloat r.LoadActual,
        formatFloat r.LoadForecast) ∧
      ∀ x y, L.parseFloat (formatFloat r.LoadActual) = some x →
        L.parseFloat (formatFloat r.LoadForecast) = some y →
        reparseLine L s = some (r.CountryCode, x, y)) ∧
    (∃ s, convertToLineProtocol now ⟨r.DateTimeUTC, "DE", f1000, f1100⟩ = .ok s ∧
      reparseLine refLib s = some ("DE", f1000, f1100)) := by
  have hdec := decodeLine_encoded now r hb
  have hdec2 := decodeLine_encoded now r2 hb2
  refine ⟨⟨?_, ?_⟩, ?_, ?_⟩
  · intro h
    rw [convertToLineProtocol_eq, convertToLineProtocol_eq] at h
    have hs := Except.ok.inj h
    rw [hs, hdec2] at hdec
    simp only [Option.some.injEq, Prod.mk.injEq] at hdec
    exact ⟨hdec.1.symm, hdec.2.1.symm, hdec.2.2.symm⟩
  · rintro ⟨h1, h2, h3⟩
    rw [convertToLineProtocol_eq, convertToLineProtocol_eq, h1, h2, h3]
  · exact ⟨_, convertToLineProtocol_eq now r, hdec,
      fun x y hx hy => reparseLine_of_decode L _ _ _ _ x y hdec hx hy⟩
  · have hd := decodeLine_encoded now ⟨r.DateTimeUTC, "DE", f1000, f1100⟩
      (show ' ' ∉ ("DE" : String).data by decide)
    exact ⟨_, convertToLineProtocol_eq now _,
      reparseLine_of_decode refLib _ _ _ _ _ _ hd parse_rendered_f1000 parse_rendered_f1100⟩

/-- Witness for C18: a German and an Austrian record. -/
theorem C18_round_trip_up_to_rendering_witness :
    (convertToLineProtocol 5 ⟨sampleTime, "DE", f1000, f1100⟩ =
        convertToLineProtocol 5 ⟨sampleTime, "AT", f1000, f1100⟩ ↔
      ("DE" : String) = "AT" ∧ formatFloat f1000 = formatFloat f1000 ∧
        formatFloat f1100 = formatFloat f1100) ∧
    (∃ s, convertToLineProtocol 5 ⟨sampleTime, "DE", f1000, f1100⟩ = .ok s ∧
      decodeLine s = some ("DE", formatFloat f1000, formatFloat f1100) ∧
      ∀ x y, refLib.parseFloat (formatFloat f1000) = some x →
        refLib.parseFloat (formatFloat f1100) = some y →
        reparseLine refLib s = some ("DE", x, y)) ∧
    (∃ s, convertToLineProtocol 5 ⟨sampleTime, "DE", f1000, f1100⟩ = .ok s ∧
      reparseLine refLib s = some ("DE", f1000, f1100)) :=
  C18_round_trip_up_to_rendering refLib 5 ⟨sampleTime, "DE", f1000, f1100⟩
    ⟨sampleTime, "AT", f1000, f1100⟩ (by decide) (by decide)

end PowerSensor
